import Mathlib

/-!
Verification development for the govcon description-acquisition pipeline.

The Go sources under `app/api/internal/services` (description service:
normalization, lenient unwrapping, AI extraction) and
`app/api/internal/repositories/opportunity.go` (description handler) and the
ingestion service are shallowly embedded below.  Strings are modelled as
`List Char` / `String` (the repository only exercises ASCII in the properties
proved here; Go byte indexing coincides with character indexing on ASCII).
Go regular expressions are embedded as explicit scanners with the same
match/replace semantics.  Every recursive definition is structural (lists or
an explicit fuel that bounds the number of consumed characters), so all
definitions evaluate by `decide`/`rfl`.
-/

namespace GovCon

/-- ASCII whitespace class of Go's regexp `\s`: tab, newline, form feed,
carriage return, space. -/
def isRegexSpace (c : Char) : Bool :=
  c = ' ' || c = '\t' || c = '\n' || c = '\x0c' || c = '\r'

/-- White space per Go's `unicode.IsSpace`, the set used by
`strings.TrimSpace`. -/
def isUnicodeSpace (c : Char) : Bool :=
  c = ' ' || c = '\t' || c = '\n' || c = '\x0b' || c = '\x0c' || c = '\r' ||
  c = '\x85' || c = '\xa0' ||
  c = ' ' || (' ' ≤ c && c ≤ ' ') || c = ' ' || c = ' ' ||
  c = ' ' || c = ' ' || c = '　'

/-- `strings.TrimSpace` on a character list. -/
def goTrimSpaceList (cs : List Char) : List Char :=
  ((cs.dropWhile isUnicodeSpace).reverse.dropWhile isUnicodeSpace).reverse

/-- `strings.TrimSpace`. -/
def goTrimSpace (s : String) : String := ⟨goTrimSpaceList s.data⟩

/-- `strings.TrimRight(line, " \t")`: trailing space/tab removal used by
`NormalizeRaw`. -/
def goTrimRightList (cs : List Char) : List Char :=
  (cs.reverse.dropWhile (fun c => c = ' ' || c = '\t')).reverse

/-- Accumulator loop of `splitLines` (tail recursive: the line so far and the
finished lines are both carried reversed). -/
def splitLinesAux : List Char → List Char → List (List Char) → List (List Char)
  | [], cur, acc => (cur.reverse :: acc).reverse
  | c :: rest, cur, acc =>
    if c = '\n' then splitLinesAux rest [] (cur.reverse :: acc)
    else splitLinesAux rest (c :: cur) acc

/-- `strings.Split(s, "\n")` (always at least one piece). -/
def splitLines (cs : List Char) : List (List Char) := splitLinesAux cs [] []

/-- `strings.ReplaceAll(s, "\r\n", "\n")` followed by
`strings.ReplaceAll(s, "\r", "\n")` (the two replacements fused: every CRLF
pair and every stray CR becomes a single LF). -/
def canonNewlines : List Char → List Char
  | [] => []
  | '\r' :: '\n' :: rest => '\n' :: canonNewlines rest
  | '\r' :: rest => '\n' :: canonNewlines rest
  | c :: rest => c :: canonNewlines rest

/-- `NormalizeRaw` (services): canonicalize line endings and trim trailing
space/tab on every line.  The debug logging in the source has no effect on the
returned value and is omitted. -/
def NormalizeRaw (rawText : String) : String :=
  let normalized := canonNewlines rawText.data
  let lines := splitLines normalized
  let cleanedLines := lines.map goTrimRightList
  ⟨List.intercalate ['\n'] cleanedLines⟩

/-- ASCII lower-casing (the tag names and keywords compared in the source are
ASCII; Go's Unicode folding agrees with this on them). -/
def asciiToLower (c : Char) : Char :=
  if 'A' ≤ c && c ≤ 'Z' then Char.ofNat (c.toNat + 32) else c

/-- Case-insensitive literal match: if `name` (already lower case) is a
case-insensitive prefix of `cs`, return the remainder. -/
def ciPrefixDrop : List Char → List Char → Option (List Char)
  | [], cs => some cs
  | _, [] => none
  | n :: ns, c :: cs => if asciiToLower c = n then ciPrefixDrop ns cs else none

/-- The alternation `strong|b|em|i|u|br|p` of the formatting-tag pattern, in
source order. -/
def fmtNames : List (List Char) :=
  ["strong".data, "b".data, "em".data, "i".data, "u".data, "br".data, "p".data]

/-- After `</?name`, the regex `(\s[^>]*)?/?>` accepts: an immediate `>`, an
immediate `/>`, or a regex-whitespace character with a `>` somewhere later
(everything before the first `>` lies in `[^>]*`, an optional `/` included). -/
def fmtTailOk : List Char → Bool
  | [] => false
  | '>' :: _ => true
  | '/' :: '>' :: _ => true
  | c :: rest => isRegexSpace c && rest.contains '>'

/-- Does some alternative of the formatting-tag pattern match here (with the
regex's backtracking across alternatives)? -/
def fmtNameOk (cs : List Char) : Bool :=
  fmtNames.any fun n =>
    match ciPrefixDrop n cs with
    | some tail => fmtTailOk tail
    | none => false

/-- One anchored attempt of `(?i)</?(strong|b|em|i|u|br|p)(\s[^>]*)?/?>`. -/
def fmtMatchAt : List Char → Bool
  | '<' :: rest =>
    (match rest with
     | '/' :: r => fmtNameOk r
     | r => fmtNameOk r)
  | _ => false

/-- Unanchored `MatchString` of the formatting-tag pattern. -/
def fmtSearch : List Char → Bool
  | [] => false
  | c :: rest => fmtMatchAt (c :: rest) || fmtSearch rest

/-- From a character list, split off everything up to and including the first
`>` (the body matched by `[^>]*>`), or `none` when no `>` remains. -/
def spanToGt : List Char → Option (List Char × List Char)
  | [] => none
  | '>' :: rest => some (['>'], rest)
  | c :: rest =>
    match spanToGt rest with
    | none => none
    | some (tag, r) => some (c :: tag, r)

/-- `stripNonFormattingTags`: replace every `<[^>]*>` match by a space unless
the formatting-tag pattern matches inside it (then keep it verbatim).  When a
`<` has no later `>`, neither it nor anything after it can start a match. -/
def stripTagsAux : Nat → List Char → List Char
  | 0, cs => cs
  | _, [] => []
  | fuel + 1, '<' :: rest =>
    (match spanToGt rest with
     | none => '<' :: rest
     | some (tagBody, r) =>
       let tag := '<' :: tagBody
       if fmtSearch tag then tag ++ stripTagsAux fuel r
       else ' ' :: stripTagsAux fuel r)
  | fuel + 1, c :: rest => c :: stripTagsAux fuel rest

def stripNonFormattingTags (text : String) : String :=
  ⟨stripTagsAux (text.data.length + 1) text.data⟩

/-- The entity alternatives of `punctuationEntityPattern`. -/
def punctEntityNames : List (List Char) :=
  ["&nbsp;".data, "&ensp;".data, "&emsp;".data, "&thinsp;".data]

def isPunct (c : Char) : Bool :=
  c = '.' || c = ',' || c = ';' || c = ':' || c = '!' || c = '?'

/-- First listed literal that is a prefix of `cs`; returns the remainder. -/
def dropFirstLit : List (List Char) → List Char → Option (List Char)
  | [], _ => none
  | n :: ns, cs => if n.isPrefixOf cs then some (cs.drop n.length) else dropFirstLit ns cs

/-- `punctuationEntityPattern.ReplaceAllString(s, "$1")`: punctuation followed
by one of the four space entities collapses to the punctuation alone. -/
def punctEntityAux : Nat → List Char → List Char
  | 0, cs => cs
  | _, [] => []
  | fuel + 1, c :: rest =>
    if isPunct c then
      match dropFirstLit punctEntityNames rest with
      | some r => c :: punctEntityAux fuel r
      | none => c :: punctEntityAux fuel rest
    else c :: punctEntityAux fuel rest

/-- Modelled subset of Go `html.UnescapeString`'s entity table: the named
entities that occur in this pipeline's data, semicolon forms first so that the
longest entity wins, plus the HTML legacy semicolon-less forms Go accepts for
them.  (Go's full table is several thousand names; the pipeline's behaviour on
the properties below only depends on the names listed.) -/
def entityTable : List (List Char × Char) :=
  [ ("amp;".data, '&'), ("lt;".data, '<'), ("gt;".data, '>'),
    ("quot;".data, '"'), ("apos;".data, '\''), ("nbsp;".data, '\xa0'),
    ("ensp;".data, ' '), ("emsp;".data, ' '), ("thinsp;".data, ' '),
    ("rsquo;".data, '’'), ("lsquo;".data, '‘'),
    ("rdquo;".data, '”'), ("ldquo;".data, '“'),
    ("ndash;".data, '–'), ("mdash;".data, '—'), ("hellip;".data, '…'),
    ("amp".data, '&'), ("lt".data, '<'), ("gt".data, '>'),
    ("quot".data, '"'), ("nbsp".data, '\xa0') ]

def findEntity : List (List Char × Char) → List Char → Option (Char × List Char)
  | [], _ => none
  | (n, c) :: ns, cs =>
    if n.isPrefixOf cs then some (c, cs.drop n.length) else findEntity ns cs

def hexDigitVal (c : Char) : Option Nat :=
  let n := c.toNat
  if 48 ≤ n && n ≤ 57 then some (n - 48)
  else if 97 ≤ n && n ≤ 102 then some (n - 87)
  else if 65 ≤ n && n ≤ 70 then some (n - 55)
  else none

def decDigits (cs : List Char) : List Char := cs.takeWhile Char.isDigit

def hexDigits (cs : List Char) : List Char := cs.takeWhile (fun c => (hexDigitVal c).isSome)

def digitsToNat (base : Nat) (f : Char → Option Nat) (ds : List Char) : Nat :=
  ds.foldl (fun acc c => acc * base + (f c).getD 0) 0

/-- A numeric character reference's code point as a character: a valid Unicode
scalar decodes to itself, anything else to U+FFFD (Go's replacement-character
behaviour; the Windows-1252 remapping of 0x80–0x9F is outside this model). -/
def codePointChar (n : Nat) : Char :=
  if Nat.isValidChar n then Char.ofNat n else '�'

/-- Modelled `html.UnescapeString`: named entities via `entityTable`, numeric
references `&#...;` / `&#x...;` (semicolon optional, as in Go). -/
def unescapeAux : Nat → List Char → List Char
  | 0, cs => cs
  | _, [] => []
  | fuel + 1, '&' :: rest =>
    (match rest with
     | '#' :: r2 =>
       (match r2 with
        | 'x' :: r3 =>
          let ds := hexDigits r3
          if ds.isEmpty then '&' :: unescapeAux fuel rest
          else
            let r4 := r3.drop ds.length
            let r5 := if r4.head? = some ';' then r4.drop 1 else r4
            codePointChar (digitsToNat 16 hexDigitVal ds) :: unescapeAux fuel r5
        | _ =>
          let ds := decDigits r2
          if ds.isEmpty then '&' :: unescapeAux fuel rest
          else
            let r4 := r2.drop ds.length
            let r5 := if r4.head? = some ';' then r4.drop 1 else r4
            codePointChar (digitsToNat 10 (fun c => some (c.toNat - '0'.toNat)) ds) ::
              unescapeAux fuel r5)
     | _ =>
       match findEntity entityTable rest with
       | some (c, r) => c :: unescapeAux fuel r
       | none => '&' :: unescapeAux fuel rest)
  | fuel + 1, c :: rest => c :: unescapeAux fuel rest

def unescapeString (s : String) : String := ⟨unescapeAux (s.data.length + 1) s.data⟩

/-- `pipeOnlyPattern = ^[\s|]+$`: a non-empty line made only of regex
whitespace and pipes. -/
def pipeOnlyLine (cs : List Char) : Bool :=
  !cs.isEmpty && cs.all fun c => isRegexSpace c || c = '|'

/-- `pipeNumberPattern.ReplaceAllString(line, " ")`: every `|digits|` becomes a
single space; scanning resumes after the closing pipe (non-overlapping
matches). -/
def pipeNumAux : Nat → List Char → List Char
  | 0, cs => cs
  | _, [] => []
  | fuel + 1, '|' :: rest =>
    let ds := decDigits rest
    if ds.isEmpty then '|' :: pipeNumAux fuel rest
    else
      (match rest.drop ds.length with
       | '|' :: r2 => ' ' :: pipeNumAux fuel r2
       | _ => '|' :: pipeNumAux fuel rest)
  | fuel + 1, c :: rest => c :: pipeNumAux fuel rest

/-- `doublePipePattern.ReplaceAllString(line, " ")`: every maximal run of two
or more pipes becomes a single space. -/
def doublePipeAux : Nat → List Char → List Char
  | 0, cs => cs
  | _, [] => []
  | fuel + 1, '|' :: '|' :: rest => ' ' :: doublePipeAux fuel (rest.dropWhile (· = '|'))
  | fuel + 1, c :: rest => c :: doublePipeAux fuel rest

/-- `leadingPipePattern = ^\|+[\s]*`: strip leading pipes and the whitespace
run after them. -/
def stripLeadingPipes (cs : List Char) : List Char :=
  match cs with
  | '|' :: _ => (cs.dropWhile (· = '|')).dropWhile isRegexSpace
  | _ => cs

/-- `trailingPipePattern = [\s]*\|+$`: strip trailing pipes and the whitespace
run before them. -/
def stripTrailingPipes (cs : List Char) : List Char :=
  match cs.reverse with
  | '|' :: _ => (((cs.reverse).dropWhile (· = '|')).dropWhile isRegexSpace).reverse
  | _ => cs

/-- `spacePattern = \s{2,}` replaced by a single space (a lone whitespace
character is kept as is). -/
def collapseSpacesAux : Nat → List Char → List Char
  | 0, cs => cs
  | _, [] => []
  | fuel + 1, c :: rest =>
    if isRegexSpace c then
      match rest with
      | d :: _ =>
        if isRegexSpace d then ' ' :: collapseSpacesAux fuel (rest.dropWhile isRegexSpace)
        else c :: collapseSpacesAux fuel rest
      | [] => [c]
    else c :: collapseSpacesAux fuel rest

/-- The per-line cleanup of `Normalize`, in source order: pipe-number pairs,
double pipes, leading pipes, trailing pipes, whitespace runs, trim. -/
def processLine (line : List Char) : List Char :=
  let c1 := pipeNumAux (line.length + 1) line
  let c2 := doublePipeAux (c1.length + 1) c1
  let c3 := stripLeadingPipes c2
  let c4 := stripTrailingPipes c3
  let c5 := collapseSpacesAux (c4.length + 1) c4
  goTrimSpaceList c5

/-- The line loop of `Normalize`: drop pipe-only filler lines, clean each
line, and keep at most two consecutive blank lines. -/
def normalizeLines : List (List Char) → Nat → List (List Char)
  | [], _ => []
  | line :: ls, blankCount =>
    if pipeOnlyLine line then normalizeLines ls blankCount
    else
      let cleaned := processLine line
      if cleaned.isEmpty then
        if blankCount + 1 ≤ 2 then [] :: normalizeLines ls (blankCount + 1)
        else normalizeLines ls (blankCount + 1)
      else cleaned :: normalizeLines ls 0

/-- `Normalize` (services): strip non-formatting tags, collapse
punctuation-entity artifacts, decode entities, apply raw normalization, then
clean pipes/whitespace per line and collapse blank-line runs. -/
def Normalize (rawText : String) : String :=
  let s1 := stripNonFormattingTags rawText
  let s2 : String := ⟨punctEntityAux (s1.data.length + 1) s1.data⟩
  let s3 := unescapeString s2
  let s4 := NormalizeRaw s3
  let lines := splitLines s4.data
  ⟨List.intercalate ['\n'] (normalizeLines lines 0)⟩

/-! ### Content hashing -/

/-- Modelled `ComputeContentHash` (crypto/sha256 + hex encoding): the
pipeline only ever compares digests for equality, so the SHA-256 digest is
modelled by an injective tagging of its input text. -/
def sha256Hex (text : String) : String := "sha256:" ++ text

def ComputeContentHash (text : String) : String := sha256Hex text

/-! ### Constants of the description service -/

def maxBodySize : Nat := 5 * 1024 * 1024
def maxExtractScanLength : Nat := 10 * 1024 * 1024
def maxExtractedLength : Nat := 5 * 1024 * 1024
def maxUnwrapRecursion : Nat := 2
def NORMALIZATION_VERSION : Nat := 4

/-! ### Lenient JSON string parsing (`parseLenientJSONString`) -/

def hex4 (a b c d : Char) : Option Nat :=
  match hexDigitVal a, hexDigitVal b, hexDigitVal c, hexDigitVal d with
  | some x, some y, some z, some w => some (((x * 16 + y) * 16 + z) * 16 + w)
  | _, _, _, _ => none

/-- Combining a UTF-16 surrogate pair, as in the source. -/
def surrogateCombine (u u2 : Nat) : Char :=
  codePointChar (0x10000 + (u - 0xd800) * 0x400 + (u2 - 0xdc00))

/-- The simple-escape decoding table of `parseLenientJSONString` (an unknown
escape leniently keeps the escaped character). -/
def lenientEscChar (esc : Char) : Char :=
  match esc with
  | '"' => '"' | '\\' => '\\' | '/' => '/' | 'b' => '\x08' | 'f' => '\x0c'
  | 'n' => '\n' | 'r' => '\r' | 't' => '\t' | other => other

/-- The scan loop of `parseLenientJSONString`, after the opening quote.
`acc` is the builder (reversed).  Raw control characters (including newlines
and carriage returns) are accepted verbatim; unknown escapes keep the escaped
character; `\uXXXX` covers surrogate pairs, a lone surrogate becoming U+FFFD
(Go's `WriteRune` replacement behaviour).  The fuel is consumed one unit per
step and at least one character is consumed per step. -/
def lenientBody : Nat → List Char → List Char → Option (String × List Char)
  | 0, _, _ => none
  | _, [], _ => none
  | fuel + 1, c :: rest, acc =>
    if c = '"' then some (⟨acc.reverse⟩, rest)
    else if c = '\\' then
      match rest with
      | [] => none
      | 'u' :: r2 =>
        (match r2 with
         | a :: b :: c2 :: d :: r3 =>
           (match hex4 a b c2 d with
            | none => none
            | some u =>
              if 0xd800 ≤ u && u ≤ 0xdbff then
                match r3 with
                | '\\' :: 'u' :: e :: f :: g :: h :: r4 =>
                  (match hex4 e f g h with
                   | some u2 =>
                     if 0xdc00 ≤ u2 && u2 ≤ 0xdfff then
                       lenientBody fuel r4 (surrogateCombine u u2 :: acc)
                     else
                       lenientBody fuel ('\\' :: 'u' :: e :: f :: g :: h :: r4)
                         (codePointChar u :: acc)
                   | none =>
                     lenientBody fuel ('\\' :: 'u' :: e :: f :: g :: h :: r4)
                       (codePointChar u :: acc))
                | _ => lenientBody fuel r3 (codePointChar u :: acc)
              else lenientBody fuel r3 (codePointChar u :: acc))
         | _ => none)
      | esc :: r2 => lenientBody fuel r2 (lenientEscChar esc :: acc)
    else lenientBody fuel rest (c :: acc)

/-- `parseLenientJSONString` starting at the opening quote; returns the
decoded value and the characters after the closing quote. -/
def parseLenientJSONString (cs : List Char) : Option (String × List Char) :=
  match cs with
  | '"' :: rest => lenientBody (rest.length + 1) rest []
  | _ => none

/-! ### Tolerant top-level scanner (`ExtractDescriptionJSONLike`) -/

def descKey : List Char := "\"description\"".data

def jsonFieldWS (c : Char) : Bool := c = ' ' || c = '\t' || c = '\n' || c = '\r'

/-- After the `"description"` key was consumed: skip whitespace, require a
colon, skip whitespace, require a string value, decode it leniently and apply
the extracted-length guardrail. -/
def extractValueAt (cs : List Char) : Option String :=
  match cs.dropWhile jsonFieldWS with
  | ':' :: rest =>
    (match rest.dropWhile jsonFieldWS with
     | '"' :: r2 =>
       (match parseLenientJSONString ('"' :: r2) with
        | some (val, _) => if val.length > maxExtractedLength then none else some val
        | none => none)
     | _ => none)
  | _ => none

/-- The character scan of `ExtractDescriptionJSONLike` after the opening
brace: tracks brace/bracket depth, string state and escapes; a quote at depth
1 outside a string that begins the literal `"description"` commits to the
key/value extraction (returning `none` overall if the continuation is not a
colon-and-string). -/
def scanLoop : List Char → Int → Bool → Bool → Option String
  | [], _, _, _ => none
  | c :: rest, depth, inString, escapeNext =>
    if escapeNext then scanLoop rest depth inString false
    else if c = '\\' && inString then scanLoop rest depth inString true
    else if c = '"' then
      if depth = 1 && !inString && descKey.isPrefixOf (c :: rest) then
        extractValueAt ((c :: rest).drop descKey.length)
      else scanLoop rest depth (!inString) escapeNext
    else if !inString && (c = '\x7b' || c = '[') then scanLoop rest (depth + 1) inString escapeNext
    else if !inString && (c = '\x7d' || c = ']') then
      if depth - 1 < 0 then none else scanLoop rest (depth - 1) inString escapeNext
    else scanLoop rest depth inString escapeNext

/-- `ExtractDescriptionJSONLike`: guardrail on total length, then scan from
the first `{`. -/
def ExtractDescriptionJSONLike (s : String) : Option String :=
  if s.data.length > maxExtractScanLength then none
  else
    match s.data.dropWhile (· ≠ '\x7b') with
    | [] => none
    | _ :: rest => scanLoop rest 1 false false

/-! ### Strict JSON (`encoding/json` as used by the unwrapper) -/

inductive JVal
  | jnull
  | jbool (b : Bool)
  | jnum (lexeme : String)
  | jstr (s : String)
  | jarr (elems : List JVal)
  | jobj (members : List (String × JVal))

/-- Strict JSON string body (after the opening quote): standard escapes only,
raw control characters below 0x20 rejected, `\uXXXX` with Go's
surrogate-pair/replacement-character semantics. -/
def strictStringBody : Nat → List Char → List Char → Option (String × List Char)
  | 0, _, _ => none
  | _, [], _ => none
  | _ + 1, '"' :: rest, acc => some (⟨acc.reverse⟩, rest)
  | fuel + 1, '\\' :: rest, acc =>
    (match rest with
     | 'u' :: a :: b :: c :: d :: r3 =>
       (match hex4 a b c d with
        | none => none
        | some u =>
          if 0xd800 ≤ u && u ≤ 0xdbff then
            match r3 with
            | '\\' :: 'u' :: e :: f :: g :: h :: r4 =>
              (match hex4 e f g h with
               | some u2 =>
                 if 0xdc00 ≤ u2 && u2 ≤ 0xdfff then
                   strictStringBody fuel r4 (surrogateCombine u u2 :: acc)
                 else
                   strictStringBody fuel ('\\' :: 'u' :: e :: f :: g :: h :: r4)
                     ('�' :: acc)
               | none =>
                 strictStringBody fuel ('\\' :: 'u' :: e :: f :: g :: h :: r4)
                   ('�' :: acc))
            | _ => strictStringBody fuel r3 ('�' :: acc)
          else if 0xdc00 ≤ u && u ≤ 0xdfff then strictStringBody fuel r3 ('�' :: acc)
          else strictStringBody fuel r3 (codePointChar u :: acc))
     | '"' :: r2 => strictStringBody fuel r2 ('"' :: acc)
     | '\\' :: r2 => strictStringBody fuel r2 ('\\' :: acc)
     | '/' :: r2 => strictStringBody fuel r2 ('/' :: acc)
     | 'b' :: r2 => strictStringBody fuel r2 ('\x08' :: acc)
     | 'f' :: r2 => strictStringBody fuel r2 ('\x0c' :: acc)
     | 'n' :: r2 => strictStringBody fuel r2 ('\n' :: acc)
     | 'r' :: r2 => strictStringBody fuel r2 ('\r' :: acc)
     | 't' :: r2 => strictStringBody fuel r2 ('\t' :: acc)
     | _ => none)
  | fuel + 1, c :: rest, acc =>
    if c.toNat < 0x20 then none else strictStringBody fuel rest (c :: acc)

/-- JSON number token; the lexeme is kept verbatim (Go decodes to float64 and
re-renders on marshal; no property below depends on number re-rendering). -/
def parseNumberLex (cs : List Char) : Option (String × List Char) :=
  let signed : List Char × List Char :=
    match cs with
    | '-' :: r => (['-'], r)
    | _ => ([], cs)
  match signed.2 with
  | [] => none
  | c :: rest =>
    let intDone : Option (List Char × List Char) :=
      if c = '0' then
        match rest with
        | d :: _ => if d.isDigit then none else some (signed.1 ++ ['0'], rest)
        | [] => some (signed.1 ++ ['0'], [])
      else if c.isDigit then
        let ds := (c :: rest).takeWhile Char.isDigit
        some (signed.1 ++ ds, (c :: rest).drop ds.length)
      else none
    match intDone with
    | none => none
    | some (acc, cs1) =>
      let fracDone : Option (List Char × List Char) :=
        match cs1 with
        | '.' :: r =>
          let ds := r.takeWhile Char.isDigit
          if ds.isEmpty then none else some (acc ++ '.' :: ds, r.drop ds.length)
        | _ => some (acc, cs1)
      match fracDone with
      | none => none
      | some (acc2, cs2) =>
        match cs2 with
        | e :: r =>
          if e = 'e' || e = 'E' then
            let sgn : List Char × List Char :=
              match r with
              | '+' :: rr => (['+'], rr)
              | '-' :: rr => (['-'], rr)
              | _ => ([], r)
            let ds := sgn.2.takeWhile Char.isDigit
            if ds.isEmpty then none
            else some (⟨acc2 ++ e :: (sgn.1 ++ ds)⟩, sgn.2.drop ds.length)
          else some (⟨acc2⟩, cs2)
        | [] => some (⟨acc2⟩, [])

/-- Stack frames of the strict JSON value parser. -/
inductive JFrame
  | arr (acc : List JVal)
  | obj (acc : List (String × JVal)) (key : String)

/-- Strict JSON parser as a fuel-bounded stack machine (`pending = some v`
is the unwinding state after a complete value).  Every step consumes at least
one character, so fuel `2 * length + 4` never runs out on real input. -/
def parseRun : Nat → Option JVal → List Char → List JFrame → Option (JVal × List Char)
  | 0, _, _, _ => none
  | fuel + 1, some v, cs, stack =>
    (match stack with
     | [] => some (v, cs)
     | JFrame.arr acc :: st =>
       (match cs.dropWhile jsonFieldWS with
        | ',' :: rest => parseRun fuel none rest (JFrame.arr (v :: acc) :: st)
        | ']' :: rest => parseRun fuel (some (JVal.jarr (v :: acc).reverse)) rest st
        | _ => none)
     | JFrame.obj acc k :: st =>
       (match cs.dropWhile jsonFieldWS with
        | ',' :: rest =>
          (match rest.dropWhile jsonFieldWS with
           | '"' :: r2 =>
             (match strictStringBody (r2.length + 1) r2 [] with
              | some (k2, r3) =>
                (match r3.dropWhile jsonFieldWS with
                 | ':' :: r5 => parseRun fuel none r5 (JFrame.obj ((k, v) :: acc) k2 :: st)
                 | _ => none)
              | none => none)
           | _ => none)
        | '\x7d' :: rest => parseRun fuel (some (JVal.jobj ((k, v) :: acc).reverse)) rest st
        | _ => none))
  | fuel + 1, none, cs, stack =>
    (match cs.dropWhile jsonFieldWS with
     | [] => none
     | '\x7b' :: rest =>
       (match rest.dropWhile jsonFieldWS with
        | '\x7d' :: r2 => parseRun fuel (some (JVal.jobj [])) r2 stack
        | '"' :: r2 =>
          (match strictStringBody (r2.length + 1) r2 [] with
           | some (k, r3) =>
             (match r3.dropWhile jsonFieldWS with
              | ':' :: r5 => parseRun fuel none r5 (JFrame.obj [] k :: stack)
              | _ => none)
           | none => none)
        | _ => none)
     | '[' :: rest =>
       (match rest.dropWhile jsonFieldWS with
        | ']' :: r2 => parseRun fuel (some (JVal.jarr [])) r2 stack
        | r1 => parseRun fuel none r1 (JFrame.arr [] :: stack))
     | '"' :: rest =>
       (match strictStringBody (rest.length + 1) rest [] with
        | some (s, r) => parseRun fuel (some (JVal.jstr s)) r stack
        | none => none)
     | 't' :: rest =>
       if "rue".data.isPrefixOf rest then
         parseRun fuel (some (JVal.jbool true)) (rest.drop 3) stack
       else none
     | 'f' :: rest =>
       if "alse".data.isPrefixOf rest then
         parseRun fuel (some (JVal.jbool false)) (rest.drop 4) stack
       else none
     | 'n' :: rest =>
       if "ull".data.isPrefixOf rest then
         parseRun fuel (some JVal.jnull) (rest.drop 3) stack
       else none
     | cs1 =>
       (match parseNumberLex cs1 with
        | some (lex, r) => parseRun fuel (some (JVal.jnum lex)) r stack
        | none => none))

/-- Full strict parse of a JSON document, trailing whitespace allowed
(`json.Unmarshal`'s acceptance of a top-level value). -/
def parseJSON (s : String) : Option JVal :=
  match parseRun (2 * s.data.length + 4) none s.data [] with
  | some (v, rest) => if (rest.dropWhile jsonFieldWS).isEmpty then some v else none
  | none => none

/-! ### `json.Marshal` of decoded values (used when a `description` value is
itself an object or array) -/

def hexChar (n : Nat) : Char :=
  if n < 10 then Char.ofNat ('0'.toNat + n) else Char.ofNat ('a'.toNat + n - 10)

/-- `encoding/json` string escaping (HTML escaping enabled, Go's default). -/
def marshalStringChar (c : Char) : List Char :=
  if c = '"' then ['\\', '"']
  else if c = '\\' then ['\\', '\\']
  else if c = '\n' then ['\\', 'n']
  else if c = '\r' then ['\\', 'r']
  else if c = '\t' then ['\\', 't']
  else if c = '<' then "\\u003c".data
  else if c = '>' then "\\u003e".data
  else if c = '&' then "\\u0026".data
  else if c.toNat < 0x20 then
    "\\u00".data ++ [hexChar (c.toNat / 16), hexChar (c.toNat % 16)]
  else if c = ' ' then "\\u2028".data
  else if c = ' ' then "\\u2029".data
  else [c]

def marshalString (s : String) : List Char :=
  '"' :: (s.data.map marshalStringChar).flatten ++ ['"']

/-- Byte-wise `<` on Go strings (the order `json.Marshal` sorts map keys by);
on the ASCII data of this pipeline character order coincides. -/
def strLt : List Char → List Char → Bool
  | [], [] => false
  | [], _ :: _ => true
  | _ :: _, [] => false
  | x :: xs, y :: ys => if x = y then strLt xs ys else decide (x.toNat < y.toNat)

/-- A decoded object becomes a `map[string]any`: later duplicate keys win. -/
def dedupLast : List (String × JVal) → List (String × JVal)
  | [] => []
  | (k, v) :: rest =>
    if rest.any (fun m => m.fst == k) then dedupLast rest
    else (k, v) :: dedupLast rest

def insertByKey (m : String × JVal) : List (String × JVal) → List (String × JVal)
  | [] => [m]
  | n :: ns => if strLt m.fst.data n.fst.data then m :: n :: ns else n :: insertByKey m ns

def sortByKey : List (String × JVal) → List (String × JVal)
  | [] => []
  | m :: ms => insertByKey m (sortByKey ms)

/-- `json.Marshal` of a decoded value; the fuel bounds the nesting depth (the
caller passes at least the length of the document the value was parsed from).
Numbers are re-emitted from their kept lexeme (Go re-renders the float64; no
property below depends on number re-rendering). -/
def marshalAux : Nat → JVal → List Char
  | _, JVal.jnull => "null".data
  | _, JVal.jbool true => "true".data
  | _, JVal.jbool false => "false".data
  | _, JVal.jnum lex => lex.data
  | _, JVal.jstr s => marshalString s
  | 0, JVal.jarr _ => "null".data
  | 0, JVal.jobj _ => "null".data
  | fuel + 1, JVal.jarr xs =>
    '[' :: List.intercalate [','] (xs.map (marshalAux fuel)) ++ [']']
  | fuel + 1, JVal.jobj ms =>
    let ms2 := sortByKey (dedupLast ms)
    '\x7b' :: List.intercalate [',']
        (ms2.map fun m => marshalString m.fst ++ ':' :: marshalAux fuel m.snd) ++ ['\x7d']

/-! ### `json.Unmarshal` as used by `unwrapDescriptionTextRecursive` -/

def keyFoldEq (a b : String) : Bool :=
  a.data.map asciiToLower == b.data.map asciiToLower

/-- Struct field matching for `json:"description"`: among all members whose
key matches case-insensitively (Go `EqualFold`; ASCII fold suffices here),
the last assignment wins. -/
def descriptionField (ms : List (String × JVal)) : Option JVal :=
  ((ms.filter fun m => keyFoldEq m.fst "description").getLast?).map (·.snd)

/-- `json.Unmarshal([]byte(s), &struct{ Description any }{})`: outer `none`
models an unmarshal error (malformed document, or a non-object / non-null top
level); `some d` is success with `d` the decoded `description` member
(`none` when the member is missing or JSON `null` — both leave the `any`
field nil). -/
def goUnmarshalDescription (s : String) : Option (Option JVal) :=
  match parseJSON s with
  | none => none
  | some (JVal.jobj ms) =>
    some
      (match descriptionField ms with
       | some JVal.jnull => none
       | some v => some v
       | none => none)
  | some JVal.jnull => some none
  | some _ => none

/-- `json.Unmarshal([]byte(s), &inner)` for `inner : string`: succeeds on a
string document (and on `null`, leaving the zero value). -/
def goUnmarshalString (s : String) : Option String :=
  match parseJSON s with
  | some (JVal.jstr v) => some v
  | some JVal.jnull => some ""
  | _ => none

/-! ### `UnwrapDescriptionText` -/

def containsSubstr : List Char → List Char → Bool
  | [], needle => needle.isEmpty
  | h :: t, needle => needle.isPrefixOf (h :: t) || containsSubstr t needle

/-- One attempt of the body of `unwrapDescriptionTextRecursive`: `some v`
exactly when the Go code recurses on `v` (with `depth+1`), `none` when it
returns the input unchanged.  The case split follows the source: Case A (a
JSON object with a `description` member, strict parse first, tolerant scanner
on parse failure, object/array values re-marshalled), Case B (a JSON-encoded
string, strict parse first, tolerant scanner on failure). -/
def unwrapStep (input : String) : Option String :=
  let s := goTrimSpaceList input.data
  if s.isEmpty then none
  else if decide (s.head? = some '\x7b') && containsSubstr s descKey then
    match goUnmarshalDescription ⟨s⟩ with
    | some (some (JVal.jstr v)) =>
      if (goTrimSpaceList v.data).isEmpty then none else some v
    | some (some (JVal.jobj ms)) => some ⟨marshalAux (s.length + 1) (JVal.jobj ms)⟩
    | some (some (JVal.jarr xs)) => some ⟨marshalAux (s.length + 1) (JVal.jarr xs)⟩
    | some _ => none
    | none =>
      match ExtractDescriptionJSONLike ⟨s⟩ with
      | some v => if (goTrimSpaceList v.data).isEmpty then none else some v
      | none => none
  else if decide (s.head? = some '"') then
    match goUnmarshalString ⟨s⟩ with
    | some inner => some inner
    | none =>
      match ExtractDescriptionJSONLike ⟨s⟩ with
      | some v => if (goTrimSpaceList v.data).isEmpty then none else some v
      | none => none
  else none

/-- Unwrapping with a remaining recursion budget of `m` steps. -/
def unwrapG : Nat → String → String
  | 0, input => input
  | m + 1, input =>
    match unwrapStep input with
    | none => input
    | some v => unwrapG m v

/-- `unwrapDescriptionTextRecursive input depth`: the Go depth counter
(returning the input once `depth >= maxUnwrapRecursion`) is represented by
the remaining budget `maxUnwrapRecursion - depth`. -/
def unwrapDescriptionTextRecursive (input : String) (depth : Nat) : String :=
  unwrapG (maxUnwrapRecursion - depth) input

/-- `UnwrapDescriptionText`. -/
def UnwrapDescriptionText (input : String) : String :=
  unwrapDescriptionTextRecursive input 0

/-! ### Backtracking pattern threads

Each Go regular expression of the AI extractor is embedded as a matcher over
priority-ordered lists of remainders (`Rem`): the head of the list is the
thread the regex engine's leftmost-first backtracking would commit to first.
-/

abbrev Rem := List (List Char)

/-- Case-insensitive literal (for `(?i)` patterns; `kw` is lower case). -/
def litCI (kw : List Char) (cs : List Char) : Rem :=
  match ciPrefixDrop kw cs with
  | some r => [r]
  | none => []

/-- Case-sensitive literal. -/
def litCS (kw : List Char) (cs : List Char) : Rem :=
  if kw.isPrefixOf cs then [cs.drop kw.length] else []

def seqR (f g : List Char → Rem) (cs : List Char) : Rem := (f cs).flatMap g

def altR (f g : List Char → Rem) (cs : List Char) : Rem := f cs ++ g cs

def altLits (names : List (List Char)) (cs : List Char) : Rem :=
  names.flatMap fun n => litCI n cs

/-- Greedy `(...)?`: the consuming thread first. -/
def optR (f : List Char → Rem) (cs : List Char) : Rem := f cs ++ [cs]

/-- Greedy `[class]?` on a single character. -/
def optClass (p : Char → Bool) : List Char → Rem
  | [] => [[]]
  | c :: rest => if p c then [rest, c :: rest] else [c :: rest]

/-- Greedy `[class]{min,}`: remainders longest-consumption-first. -/
def classRuns (p : Char → Bool) (min : Nat) (cs : List Char) : Rem :=
  let run := cs.takeWhile p
  (List.range (run.length + 1 - min)).map fun i => cs.drop (run.length - i)

def wsPlus : List Char → Rem := classRuns isRegexSpace 1

def wsStar : List Char → Rem := classRuns isRegexSpace 0

/-- Exactly `\d{n}`. -/
def digitsN : Nat → List Char → Option (List Char)
  | 0, cs => some cs
  | _ + 1, [] => none
  | n + 1, c :: rest => if c.isDigit then digitsN n rest else none

def exactDigits (n : Nat) (cs : List Char) : Rem :=
  match digitsN n cs with
  | some r => [r]
  | none => []

/-- Lazy `.*?` (Go's `.` does not cross a newline): shortest-first. -/
def lazyAnyNoNL : List Char → Rem
  | [] => [[]]
  | c :: rest => if c = '\n' then [c :: rest] else (c :: rest) :: lazyAnyNoNL rest

def firstSome {α : Type} : List (Option α) → Option α
  | [] => none
  | some a :: _ => some a
  | none :: rest => firstSome rest

/-- Leftmost match: try the anchored matcher at every position, left to
right. -/
def scanFirst {α : Type} (f : List Char → Option α) : List Char → Option α
  | [] => f []
  | c :: rest =>
    match f (c :: rest) with
    | some v => some v
    | none => scanFirst f rest

/-! ### Contact extraction (`extractContacts`) -/

def isAsciiAlpha (c : Char) : Bool :=
  let n := c.toNat
  (97 ≤ n && n ≤ 122) || (65 ≤ n && n ≤ 90)

def isEmailLocalChar (c : Char) : Bool :=
  isAsciiAlpha c || c.isDigit || c = '.' || c = '_' || c = '%' || c = '+' || c = '-'

def isEmailDomainChar (c : Char) : Bool :=
  isAsciiAlpha c || c.isDigit || c = '.' || c = '-'

/-- In the maximal domain run, the greedy `[a-zA-Z0-9.-]+\.` backtracks to
the last dot followed by at least two letters; the result is that dot's index
and the length of the letter run after it. -/
def lastDotTldAux : List Char → Nat → Option (Nat × Nat) → Option (Nat × Nat)
  | [], _, best => best
  | '.' :: rest, idx, best =>
    let run := rest.takeWhile isAsciiAlpha
    if run.length ≥ 2 then lastDotTldAux rest (idx + 1) (some (idx, run.length))
    else lastDotTldAux rest (idx + 1) best
  | _ :: rest, idx, best => lastDotTldAux rest (idx + 1) best

/-- Anchored `[a-zA-Z0-9._%+-]+@[a-zA-Z0-9.-]+\.[a-zA-Z]{2,}`; returns the
match length. -/
def emailAt (cs : List Char) : Option Nat :=
  let loc := cs.takeWhile isEmailLocalChar
  if loc.isEmpty then none
  else
    match cs.drop loc.length with
    | '@' :: r =>
      let dom := r.takeWhile isEmailDomainChar
      (match lastDotTldAux dom 0 none with
       | some (di, tl) => some (loc.length + 1 + di + 1 + tl)
       | none => none)
    | _ => none

def isPhoneSep (c : Char) : Bool := c = '-' || c = '.' || isRegexSpace c

/-- Anchored phone alternation
`\(?\d{3}\)?[-.\s]?\d{3}[-.\s]?\d{4}|\d{3}-\d{3}-\d{4}|\d{10}`. -/
def phoneAt (cs : List Char) : Option Nat :=
  let alt1 :=
    seqR (optClass (· = '(')) (seqR (exactDigits 3) (seqR (optClass (· = ')'))
      (seqR (optClass isPhoneSep) (seqR (exactDigits 3)
        (seqR (optClass isPhoneSep) (exactDigits 4))))))
  let alt2 :=
    seqR (exactDigits 3) (seqR (litCS ['-']) (seqR (exactDigits 3)
      (seqR (litCS ['-']) (exactDigits 4))))
  let alt3 := exactDigits 10
  match altR alt1 (altR alt2 alt3) cs with
  | [] => none
  | r :: _ => some (cs.length - r.length)

def isURLChar (c : Char) : Bool :=
  !(isRegexSpace c || c = '<' || c = '>' || c = '"' || c = '\x7b' || c = '\x7d' ||
    c = '|' || c = '\\' || c = '^' || c = '\x60' || c = '[' || c = ']')

/-- Anchored ``https?://[^\s<>"{}|\\^`\[\]]+`` (case-sensitive). -/
def urlAt (cs : List Char) : Option Nat :=
  match seqR (litCS "http".data) (seqR (optClass (· = 's'))
      (seqR (litCS "://".data) (classRuns isURLChar 1))) cs with
  | [] => none
  | r :: _ => some (cs.length - r.length)

/-- `FindAllString(text, -1)`: leftmost non-overlapping matches, scanning
resumes after each match. -/
def findAllMatches (f : List Char → Option Nat) : Nat → List Char → List String
  | 0, _ => []
  | _, [] => []
  | fuel + 1, c :: rest =>
    match f (c :: rest) with
    | some n =>
      (⟨(c :: rest).take n⟩ : String) :: findAllMatches f fuel ((c :: rest).drop (max n 1))
    | none => findAllMatches f fuel rest

/-- `deduplicateStrings`: drop duplicates, keeping first-seen order. -/
def dedupAux : List String → List String → List String
  | [], _ => []
  | s :: rest, seen =>
    if seen.contains s then dedupAux rest seen else s :: dedupAux rest (s :: seen)

def deduplicateStrings (slice : List String) : List String := dedupAux slice []

/-- `extractContacts`: emails, phones, URLs (each deduplicated). -/
def extractContacts (text : String) : List String × List String × List String :=
  let n := text.data.length + 1
  (deduplicateStrings (findAllMatches emailAt n text.data),
   deduplicateStrings (findAllMatches phoneAt n text.data),
   deduplicateStrings (findAllMatches urlAt n text.data))

/-! ### Key-fact extraction (`extractKeyFacts`) -/

/-- The prefix of `quotePattern` up to the captured digits:
`(?i)(?:pricing\s+for\s+this\s+)?(?:quote|quotation|offer)\s+(?:is\s+)?(?:valid|validity|good)\s+(?:for\s+)?`. -/
def quoteValPre : List Char → Rem :=
  seqR (optR (seqR (litCI "pricing".data) (seqR wsPlus (seqR (litCI "for".data)
      (seqR wsPlus (seqR (litCI "this".data) wsPlus))))))
    (seqR (altLits ["quote".data, "quotation".data, "offer".data])
      (seqR wsPlus (seqR (optR (seqR (litCI "is".data) wsPlus))
        (seqR (altLits ["valid".data, "validity".data, "good".data])
          (seqR wsPlus (optR (seqR (litCI "for".data) wsPlus)))))))

/-- `(\d+)\s*days?` at the end of `quotePattern`: maximal digits, whitespace,
then the literal `day` (the trailing `s` is optional and unconstrained). -/
def digitsThenDays (r : List Char) : Option String :=
  let ds := r.takeWhile Char.isDigit
  if ds.isEmpty then none
  else
    match ciPrefixDrop "day".data ((r.drop ds.length).dropWhile isRegexSpace) with
    | some _ => some ⟨ds⟩
    | none => none

/-- `quotePattern.FindStringSubmatch`: the captured day count. -/
def quoteValidityDaysNum (text : String) : Option String :=
  scanFirst (fun cs => firstSome ((quoteValPre cs).map digitsThenDays)) text.data

/-- Head alternation of `rotiLeadTimePattern`:
`rotis?|reports\s+of\s+test\s+and\s+inspection`. -/
def rotiHead : List Char → Rem :=
  altR (seqR (litCI "roti".data) (optR (litCI "s".data)))
    (seqR (litCI "reports".data) (seqR wsPlus (seqR (litCI "of".data)
      (seqR wsPlus (seqR (litCI "test".data) (seqR wsPlus (seqR (litCI "and".data)
        (seqR wsPlus (litCI "inspection".data)))))))))

/-- Tail of `rotiLeadTimePattern`: `(?:due|required)\s+(\d+)\s+days?\s+prior`. -/
def rotiTail (r : List Char) : Option String :=
  firstSome ((seqR (altLits ["due".data, "required".data]) wsPlus r).map fun r2 =>
    let ds := r2.takeWhile Char.isDigit
    if ds.isEmpty then none
    else
      let r3 := r2.drop ds.length
      let wsr := r3.takeWhile isRegexSpace
      if wsr.isEmpty then none
      else
        match ciPrefixDrop "day".data (r3.drop wsr.length) with
        | none => none
        | some r4 =>
          let r5 := match ciPrefixDrop "s".data r4 with | some x => x | none => r4
          let wsr2 := r5.takeWhile isRegexSpace
          if wsr2.isEmpty then none
          else
            match ciPrefixDrop "prior".data (r5.drop wsr2.length) with
            | some _ => some ⟨ds⟩
            | none => none)

/-- `rotiLeadTimePattern.FindStringSubmatch`: the captured day count, with
the lazy `.*?` bridging head and tail (shortest first, not across a
newline). -/
def rotiLeadDays (text : String) : Option String :=
  scanFirst
    (fun cs =>
      firstSome ((rotiHead cs).map fun h =>
        firstSome ((lazyAnyNoNL h).map rotiTail)))
    text.data

def certHeadNames : List (List Char) :=
  ["certificate".data, "certification".data, "cert".data]

def certKindNames : List (List Char) :=
  ["compliance".data, "conformance".data, "origin".data, "insurance".data]

/-- `certKindNames` plus `quality` (the `certsRequired` variant inside
`OptimizeForAI`). -/
def certKindNamesQ : List (List Char) := certKindNames ++ ["quality".data]

/-- Anchored `(?i)(?:certificate|certification|cert)\s+(?:of\s+)?(?:…)`;
returns the match length. -/
def certAt (kinds : List (List Char)) (cs : List Char) : Option Nat :=
  match seqR (altLits certHeadNames)
      (seqR wsPlus (seqR (optR (seqR (litCI "of".data) wsPlus)) (altLits kinds))) cs with
  | [] => none
  | r :: _ => some (cs.length - r.length)

def certPatternMatches (text : String) : Bool :=
  (scanFirst (certAt certKindNames) text.data).isSome

def containsCI (text : List Char) (kw : List Char) : Bool :=
  containsSubstr (text.map asciiToLower) kw

/-- `extractKeyFacts`: keyword- and pattern-derived facts, deduplicated. -/
def extractKeyFacts (text : String) : List String :=
  let lower := text.data.map asciiToLower
  let facts :=
    (if containsSubstr lower "irpod".data || containsSubstr lower "requires irpod".data then
       ["Requires IRPOD review"] else []) ++
    (match quoteValidityDaysNum text with
     | some ds => ["Quote validity: " ++ ds ++ " days"]
     | none => []) ++
    (if containsSubstr lower "rotis".data ||
        containsSubstr lower "reports of test and inspection".data then
       ["ROTIs (Reports of Test and Inspection) required"] ++
       (match rotiLeadDays text with
        | some ds => ["ROTIs due " ++ ds ++ " days prior to delivery"]
        | none => [])
     else []) ++
    (if containsSubstr lower "mil-p-24503".data || containsSubstr lower "mil p 24503".data then
       ["MIL-P-24503 specification"] else []) ++
    (if certPatternMatches text then ["Certificate required"] else []) ++
    (if containsSubstr lower "do rated".data || containsSubstr lower "rated order".data then
       ["DO-rated order"] else []) ++
    (if containsSubstr lower "wawf".data || containsSubstr lower "wide area workflow".data then
       ["WAWF (Wide Area Workflow) required"] else []) ++
    (if containsSubstr lower "cmmc".data then ["CMMC certification required"] else [])
  deduplicateStrings facts

/-! ### Clause lines, paragraph scoring and the boilerplate state machine -/

/-- Keywords for relevant clause titles (`parseClauseLine`). -/
def relevantKeywords : List String :=
  ["small business", "set-aside", "set aside", "cybersecurity", "cmmc",
   "wawf", "wide area workflow", "priority rating", "payment", "certificate",
   "compliance", "delivery", "submission", "quote", "validity", "irpod",
   "do rated", "rated order", "certification", "certificate of compliance"]

/-- `parseClauseLine`: the first pipe-field as title when it is at least 8
characters and contains a relevance keyword (`some title` iff relevant). -/
def parseClauseLine (line : String) : Option String :=
  if !line.data.contains '|' then none
  else
    let first := goTrimSpaceList (line.data.takeWhile (· ≠ '|'))
    if first.length < 8 then none
    else
      let titleLower := first.map asciiToLower
      if relevantKeywords.any (fun kw => containsSubstr titleLower kw.data) then
        some ⟨first⟩
      else none

/-- Positive scoring keywords (`scoreParagraph`). -/
def positiveKeywords : List String :=
  ["scope", "requirements", "delivery", "submission", "certificate",
   "quote", "valid", "due", "close", "amendment", "irpod", "wawf",
   "cmmc", "easa", "faa", "rotis", "specification", "deliverable",
   "contract", "order", "purchase", "acquisition"]

/-- Is the letter content of `cs` at least 80% upper case (with integer
division, as in the source)? -/
def upperRatio80 (cs : List Char) : Bool :=
  let letterCount := (cs.filter isAsciiAlpha).length
  let upperCount := (cs.filter fun c => 'A' ≤ c && c ≤ 'Z').length
  letterCount > 0 && upperCount * 100 / letterCount ≥ 80

def negativePatterns : List String :=
  ["block 1:", "dd form 1423", "inspection acceptance",
   "information regarding abbreviations"]

/-- `isBoilerplateParagraph`: empty, a negative keyword, or long and mostly
upper case. -/
def isBoilerplateParagraph (para : String) : Bool :=
  let paraTrimmed := goTrimSpaceList para.data
  if paraTrimmed.isEmpty then true
  else
    let paraLower := paraTrimmed.map asciiToLower
    if negativePatterns.any (fun p => containsSubstr paraLower p.data) then true
    else if paraTrimmed.length > 100 then upperRatio80 paraTrimmed
    else false

/-- `scoreParagraph`: +2 per positive keyword, −10 for boilerplate. -/
def scoreParagraph (para : String) : Int :=
  let paraLower := para.data.map asciiToLower
  let base : Int :=
    positiveKeywords.foldl
      (fun acc kw => if containsSubstr paraLower kw.data then acc + 2 else acc) 0
  if isBoilerplateParagraph para then base - 10 else base

/-- `boilerplateEnterPattern = (?i)information regarding abbreviations.*dd
form 1423` on one line: the marker phrase with the form number somewhere
after it. -/
def bpEnterAux : List Char → Bool
  | [] => false
  | c :: rest =>
    if "information regarding abbreviations".data.isPrefixOf (c :: rest) then
      containsSubstr ((c :: rest).drop 35) "dd form 1423".data
    else bpEnterAux rest

def boilerplateEnterMatch (line : List Char) : Bool :=
  bpEnterAux (line.map asciiToLower)

/-- The three `boilerplateExitPatterns` (all literal, case-insensitive). -/
def boilerplateExitMatch (line : List Char) : Bool :=
  let low := line.map asciiToLower
  containsSubstr low "date of first submission".data ||
  containsSubstr low "submit at the time of material delivery".data ||
  containsSubstr low "certificate of compliance".data

/-- Restriction signals mined from a boilerplate section on exit. -/
def boilerplateSignals (sect : List String) : List String :=
  let txt := (List.intercalate ['\n'] (sect.map String.data)).map asciiToLower
  (if containsSubstr txt "noforn".data then ["NOFORN restrictions apply"] else []) ++
  (if containsSubstr txt "need-to-know".data || containsSubstr txt "need to know".data then
     ["Need-to-know restrictions apply"] else []) ++
  (if containsSubstr txt "foreign national".data then
     ["Foreign nationals restrictions may apply"] else [])

/-- The boilerplate state machine of `OptimizeForAI`: returns the lines kept
and the key facts extended by the restriction signals of every completed
boilerplate section (a section still open at the end is discarded, as in the
source). -/
def boilerplateScan :
    List String → Bool → List String → List String → List String × List String
  | [], _, _, facts => ([], facts)
  | line :: ls, inBp, sect, facts =>
    if boilerplateEnterMatch line.data then boilerplateScan ls true [] facts
    else if inBp then
      if boilerplateExitMatch line.data then
        let step := boilerplateScan ls false [] (facts ++ boilerplateSignals sect)
        (line :: step.1, step.2)
      else boilerplateScan ls true (sect ++ [line]) facts
    else
      let step := boilerplateScan ls false sect facts
      (line :: step.1, step.2)

/-- `headingPattern = ^\d+\.\s+`. -/
def headingMatch (cs : List Char) : Bool :=
  let ds := cs.takeWhile Char.isDigit
  if ds.isEmpty then false
  else
    match cs.drop ds.length with
    | '.' :: r => !(r.takeWhile isRegexSpace).isEmpty
    | _ => false

/-- Finalize the paragraph accumulator: join with newlines, keep if its trim
is non-empty. -/
def finishPara (currentPara : List String) : List String :=
  if currentPara.isEmpty then []
  else
    let paraText := String.intercalate "\n" currentPara
    if (goTrimSpaceList paraText.data).isEmpty then [] else [paraText]

/-- Paragraph segmentation: blank lines and heading-like lines (numbered, or
short and mostly upper case) end the current paragraph; a heading starts the
next one. -/
def buildParagraphs : List String → List String → List String
  | [], currentPara => finishPara currentPara
  | line :: ls, currentPara =>
    let lineTrimmed := goTrimSpaceList line.data
    let isHeading :=
      headingMatch lineTrimmed ||
      (decide (0 < lineTrimmed.length) && decide (lineTrimmed.length < 80) &&
        upperRatio80 lineTrimmed)
    if lineTrimmed.isEmpty || isHeading then
      let newCur : List String :=
        if isHeading && !lineTrimmed.isEmpty then [⟨lineTrimmed⟩] else []
      finishPara currentPara ++ buildParagraphs ls newCur
    else buildParagraphs ls (currentPara ++ [⟨lineTrimmed⟩])

/-- Trim each paragraph, drop empties, and attach its score. -/
def scoredParas (paragraphs : List String) : List (String × Int) :=
  paragraphs.filterMap fun para =>
    let p := goTrimSpace para
    if p.data.isEmpty then none else some (p, scoreParagraph p)

/-- One bubble-sort sweep (descending by score; adjacent swap when the left
score is strictly smaller, exactly the source's comparison). -/
def bubblePassAux (cur : String × Int) : List (String × Int) → List (String × Int)
  | [] => [cur]
  | y :: rest =>
    if cur.snd < y.snd then y :: bubblePassAux cur rest
    else cur :: bubblePassAux y rest

def bubblePass : List (String × Int) → List (String × Int)
  | [] => []
  | x :: rest => bubblePassAux x rest

def bubbleIter : Nat → List (String × Int) → List (String × Int)
  | 0, l => l
  | n + 1, l => bubbleIter n (bubblePass l)

/-- The source's index bubble sort: `length - 1` sweeps.  (The source's
shrinking inner bound only skips comparisons over the already-settled sorted
tail, which a full sweep never swaps.) -/
def sortScoredParas (l : List (String × Int)) : List (String × Int) :=
  bubbleIter (l.length - 1) l

/-! ### Selection, AI input text and excerpt -/

def defaultAIMaxChars : Nat := 8000
def defaultAIMaxParas : Nat := 40

/-- `getAIMaxChars` with the `AI_DESC_MAX_CHARS` override absent (the
modelled deployment default). -/
def getAIMaxChars : Nat := defaultAIMaxChars

/-- `getAIMaxParas` with the `AI_DESC_MAX_PARAS` override absent. -/
def getAIMaxParas : Nat := defaultAIMaxParas

def headerTextOf (keyFacts : List String) : String :=
  "KEY FACTS:\n" ++ String.intercalate "\n" keyFacts ++ "\n\nRELEVANT EXCERPT:\n"

/-- The selection loop: stop at the paragraph cap, at the first non-positive
score, or when the character budget would overflow; otherwise select and
count the paragraph plus a two-character separator. -/
def selectLoop : List (String × Int) → Nat → Int → Int → List String
  | [], _, _, _ => []
  | (text, score) :: rest, i, avail, total =>
    if i ≥ getAIMaxParas then []
    else if score ≤ 0 then []
    else if total + Int.ofNat text.length > avail then []
    else text :: selectLoop rest (i + 1) avail (total + Int.ofNat text.length + 2)

/-- Cleaned lines and final key facts of a run of `OptimizeForAI`. -/
def aiCleanedAndFacts (rawPostParse : String) : List String × List String :=
  let lines := (splitLines rawPostParse.data).map fun l => (⟨l⟩ : String)
  boilerplateScan lines false [] (extractKeyFacts rawPostParse)

def aiKeyFacts (rawPostParse : String) : List String :=
  (aiCleanedAndFacts rawPostParse).2

/-- The score-sorted paragraph list of a run of `OptimizeForAI`. -/
def aiScoredSorted (rawPostParse : String) : List (String × Int) :=
  sortScoredParas (scoredParas (buildParagraphs (aiCleanedAndFacts rawPostParse).1 []))

/-- The paragraphs `OptimizeForAI` selects for the AI input text and the
excerpt. -/
def aiSelectedParagraphs (rawPostParse : String) : List String :=
  let headerChars := (headerTextOf (aiKeyFacts rawPostParse)).length
  selectLoop (aiScoredSorted rawPostParse) 0
    (Int.ofNat getAIMaxChars - Int.ofNat headerChars) 0

def excerptTarget : Nat := 1000

/-- The excerpt loop; the builder is modelled by its accumulated characters.
The Go slice `para[:remaining-3]` panics when `remaining - 3` is negative;
that panic is modelled as `Except.error`. -/
def buildExcerpt : List String → List Char → Except String String
  | [], acc => Except.ok ⟨acc⟩
  | para :: rest, acc =>
    if acc.length ≥ excerptTarget then Except.ok ⟨acc⟩
    else
      let acc2 := if acc.length > 0 then acc ++ ['\n', '\n'] else acc
      let remaining : Int := Int.ofNat excerptTarget - Int.ofNat acc2.length
      if Int.ofNat para.length ≤ remaining then buildExcerpt rest (acc2 ++ para.data)
      else if remaining - 3 < 0 then
        Except.error "runtime error: slice bounds out of range"
      else Except.ok ⟨acc2 ++ para.data.take (remaining - 3).toNat ++ ['.', '.', '.']⟩

/-- Case-insensitive dedup of certificate matches, trimming and keeping first
occurrences (the inline loop of `OptimizeForAI`). -/
def certsRequiredDedup : List String → List String → List String
  | [], _ => []
  | m :: rest, seen =>
    let t := goTrimSpace m
    let tl := t.data.map asciiToLower
    if seen.any (fun e => e.data.map asciiToLower == tl) then certsRequiredDedup rest seen
    else t :: certsRequiredDedup rest (t :: seen)

def decStringToNat (s : String) : Nat :=
  s.data.foldl (fun acc c => acc * 10 + (c.toNat - '0'.toNat)) 0

/-- `models.AiMeta` (the fields the pipeline writes). -/
structure AiMeta where
  POCEmails : List String := []
  POCPhones : List String := []
  ImportantURLs : List String := []
  ClausesKept : List String := []
  CertsRequired : List String := []
  KeyRequirements : List String := []
  SetAsideDetected : Option String := none
  WAWFRequired : Option Bool := none
  DORated : Option Bool := none
  RequiresIRPODReview : Option Bool := none
  QuoteValidityDays : Option Int := none

/-- Head alternation of `setAsidePattern`: `set[-\s]?aside|small\s+business`. -/
def setAsideHead : List Char → Rem :=
  altR (seqR (litCI "set".data) (seqR (optClass fun c => c = '-' || isRegexSpace c)
      (litCI "aside".data)))
    (seqR (litCI "small".data) (seqR wsPlus (litCI "business".data)))

/-- `setAsidePattern.FindStringSubmatch`: the `([^\n]+)` capture after
`\s*:?\s*`. -/
def setAsideCapture (text : String) : Option String :=
  scanFirst
    (fun cs =>
      firstSome ((seqR setAsideHead (seqR wsStar (seqR (optClass (· = ':')) wsStar)) cs).map
        fun r =>
          let cap := r.takeWhile (· ≠ '\n')
          if cap.isEmpty then none else some (⟨cap⟩ : String)))
    text.data

/-- `OptimizeForAI`: the full extraction pipeline.  The Go function's `error`
result is always nil; the `Except.error` case models the one abnormal exit it
actually has, the out-of-range slice panic in the excerpt builder. -/
def OptimizeForAI (rawPostParse : String) :
    Except String (String × String × AiMeta × Option String) :=
  if rawPostParse = "" then Except.ok ("", "", {}, none)
  else
    let lines := (splitLines rawPostParse.data).map fun l => (⟨l⟩ : String)
    let clauseTitles := lines.filterMap parseClauseLine
    let contacts := extractContacts rawPostParse
    let pocEmailPrimary := contacts.1.head?
    let keyFacts := aiKeyFacts rawPostParse
    let selectedParagraphs := aiSelectedParagraphs rawPostParse
    let aiInputText := headerTextOf keyFacts ++ String.intercalate "\n\n" selectedParagraphs
    match buildExcerpt selectedParagraphs [] with
    | Except.error e => Except.error e
    | Except.ok excerptText =>
      let certsRequired :=
        certsRequiredDedup
          (findAllMatches (certAt certKindNamesQ) (rawPostParse.data.length + 1)
            rawPostParse.data) []
      let lower := rawPostParse.data.map asciiToLower
      let aiMeta : AiMeta :=
        { POCEmails := contacts.1, POCPhones := contacts.2.1,
          ImportantURLs := contacts.2.2, ClausesKept := clauseTitles,
          CertsRequired := certsRequired, KeyRequirements := keyFacts,
          SetAsideDetected := (setAsideCapture rawPostParse).map goTrimSpace,
          WAWFRequired :=
            if containsSubstr lower "wawf".data ||
               containsSubstr lower "wide area workflow".data then some true else none,
          DORated :=
            if containsSubstr lower "do rated".data ||
               containsSubstr lower "rated order".data then some true else none,
          RequiresIRPODReview :=
            if containsSubstr lower "irpod".data then some true else none,
          QuoteValidityDays :=
            (quoteValidityDaysNum rawPostParse).map fun ds =>
              Int.ofNat (decStringToNat ds) }
      Except.ok (aiInputText, excerptText, aiMeta, pocEmailPrimary)

/-! ### The description data model and the storing paths of
`HandleGetDescription` -/

inductive DescriptionSourceType
  | none
  | inline
  | url
deriving DecidableEq

inductive FetchStatus
  | notRequested
  | fetched
  | notFound
  | error
deriving DecidableEq

/-- `models.Opportunity`: the fields the ingestion service stores and hashes.
The structured sub-objects (`naics`, `pointOfContact`, `placeOfPerformance`,
`links`) are `interface{}` in Go and are modelled by their serialized JSON
fragments. -/
structure Opportunity where
  noticeID : String
  title : String := ""
  organizationType : String := ""
  postedDate : String := ""
  type' : String := ""
  baseType : String := ""
  archiveType : String := ""
  archiveDate : String := ""
  typeOfSetAside : String := ""
  typeOfSetAsideDesc : String := ""
  responseDeadline : String := ""
  naics : String := "null"
  classificationCode : String := ""
  active : Bool := false
  pointOfContact : String := "null"
  placeOfPerformance : String := "null"
  description : String := ""
  department : String := ""
  subTier : String := ""
  office : String := ""
  links : String := "null"
deriving DecidableEq

/-- `DetectSource`: (sourceType, url, inline). -/
def DetectSource (opportunity : Opportunity) : DescriptionSourceType × String × String :=
  let desc := goTrimSpace opportunity.description
  if desc = "" then (DescriptionSourceType.none, "", "")
  else if desc.startsWith "http://" || desc.startsWith "https://" then
    (DescriptionSourceType.url, desc, "")
  else (DescriptionSourceType.inline, "", desc)

/-- `models.OpportunityDescription` (the fields the handler writes;
timestamps carry no information for the properties below and are omitted). -/
structure OpportunityDescription where
  noticeID : String
  sourceType : DescriptionSourceType
  sourceURL : Option String := none
  sourceInline : Option String := none
  fetchStatus : FetchStatus
  httpStatus : Option Int := none
  contentType : Option String := none
  rawJsonResponse : Option String := none
  lastError : Option String := none
  rawText : Option String := none
  rawTextNormalized : Option String := none
  textNormalized : Option String := none
  contentHash : Option String := none
  normalizationVersion : Option Nat := none
  aiInputText : Option String := none
  aiInputHash : Option String := none
  aiInputVersion : Option Nat := none
  excerptText : Option String := none
  aiMeta : Option AiMeta := none
  pocEmailPrimary : Option String := none

/-- The inline branch of `HandleGetDescription` (case `SourceTypeInline`):
unwrap, normalize both tiers, hash, stamp the normalization version, attach
the AI fields, and store with `fetchStatus = fetched`.  `OptimizeForAI` never
returns a non-nil error in the source; its only abnormal exit is the panic
modelled as `Except.error`, which aborts the request before a record is
stored. -/
def handleInline (noticeID sourceInline : String) : Except String OpportunityDescription :=
  let rawText := UnwrapDescriptionText sourceInline
  let rawTextNormalized := NormalizeRaw rawText
  let textNormalized := Normalize rawTextNormalized
  match OptimizeForAI rawTextNormalized with
  | Except.error e => Except.error e
  | Except.ok (aiInputText, excerptText, aiMeta, pocEmailPrimary) =>
    Except.ok
      { noticeID := noticeID,
        sourceType := DescriptionSourceType.inline,
        sourceInline := some sourceInline,
        fetchStatus := FetchStatus.fetched,
        rawText := some rawText,
        rawTextNormalized := some rawTextNormalized,
        textNormalized := some textNormalized,
        contentHash := some (ComputeContentHash textNormalized),
        normalizationVersion := some NORMALIZATION_VERSION,
        aiInputText := some aiInputText,
        aiInputHash := some (ComputeContentHash aiInputText),
        aiInputVersion := some 1,
        excerptText := some excerptText,
        aiMeta := some aiMeta,
        pocEmailPrimary := pocEmailPrimary }

/-- The URL branch of `HandleGetDescription` after `FetchDescriptionWithKey`
returned `(rawText, rawJsonResponse, httpStatus, fetchErr)`: classify into
fetch error / not found / success, the success path unwrapping, normalizing,
hashing and attaching the AI fields before the record is stored. -/
def handleURLFetchResult (noticeID sourceURL rawText rawJsonResponse : String)
    (httpStatus : Int) (fetchErr : Option String) : Except String OpportunityDescription :=
  let base : OpportunityDescription :=
    { noticeID := noticeID, sourceType := DescriptionSourceType.url,
      sourceURL := some sourceURL, fetchStatus := FetchStatus.notRequested,
      httpStatus := some httpStatus }
  match fetchErr with
  | some msg => Except.ok { base with fetchStatus := FetchStatus.error, lastError := some msg }
  | none =>
    if httpStatus = 404 ||
        containsSubstr (rawText.data.map asciiToLower) "description not found".data then
      Except.ok
        { base with
          fetchStatus := FetchStatus.notFound,
          rawText := some rawText,
          rawJsonResponse := if rawJsonResponse = "" then none else some rawJsonResponse }
    else
      let rawText2 := UnwrapDescriptionText rawText
      let rawTextNormalized := NormalizeRaw rawText2
      let textNormalized := Normalize rawTextNormalized
      match OptimizeForAI rawTextNormalized with
      | Except.error e => Except.error e
      | Except.ok (aiInputText, excerptText, aiMeta, poc) =>
        Except.ok
          { base with
            fetchStatus := FetchStatus.fetched,
            rawJsonResponse := if rawJsonResponse = "" then none else some rawJsonResponse,
            rawText := some rawText2,
            rawTextNormalized := some rawTextNormalized,
            textNormalized := some textNormalized,
            contentHash := some (ComputeContentHash textNormalized),
            normalizationVersion := some NORMALIZATION_VERSION,
            aiInputText := some aiInputText,
            aiInputHash := some (ComputeContentHash aiInputText),
            aiInputVersion := some 1,
            excerptText := some excerptText,
            aiMeta := some aiMeta,
            pocEmailPrimary := poc }

/-! ### The read cap of `FetchDescription` -/

/-- The body read of `FetchDescription` (`io.LimitReader(resp.Body,
maxBodySize)`, `io.ReadAll`, then the size check): at most `maxBodySize`
bytes are read from the transport's `body`, and a read that fills the cap is
rejected as an error rather than returned truncated. -/
def fetchReadBody (body : List Char) : Except String (List Char) :=
  if (body.take maxBodySize).length ≥ maxBodySize then
    Except.error "response body exceeds maximum size of 5242880 bytes"
  else Except.ok (body.take maxBodySize)

/-! ### Change-detecting ingestion (`ProcessOpportunity`) -/

def assocFind {α : Type} : List (String × α) → String → Option α
  | [], _ => none
  | (k, v) :: rest, key => if k = key then some v else assocFind rest key

def upsertAssoc : List (String × String) → String → String → List (String × String)
  | [], k, v => [(k, v)]
  | (k2, v2) :: rest, k, v =>
    if k2 = k then (k, v) :: rest else (k2, v2) :: upsertAssoc rest k v

/-- A row of the `opportunity` table (the columns beyond the content hash are
the opportunity's own fields). -/
structure OpportunityRow where
  opp : Opportunity
  contentHash : String
deriving DecidableEq

/-- A row of the append-only `opportunity_version` table. -/
structure VersionRow where
  noticeID : String
  contentHash : String
  rawSnapshot : String
deriving DecidableEq

/-- The three tables `ProcessOpportunity` touches. -/
structure IngestDB where
  opportunity : List (String × OpportunityRow) := []
  opportunityRaw : List (String × String) := []
  opportunityVersion : List VersionRow := []
deriving DecidableEq

def updateOppRow : List (String × OpportunityRow) → String → OpportunityRow →
    List (String × OpportunityRow)
  | [], _, _ => []
  | (k, r) :: rest, key, row =>
    if k = key then (k, row) :: rest else (k, r) :: updateOppRow rest key row

/-- `json.Marshal(opp)` (the `raw_data` snapshot), modelled as a canonical
rendering of all fields in declaration order; every property below depends on
it only through equality. -/
def marshalOpportunity (opp : Opportunity) : String :=
  String.intercalate "\x1f"
    [opp.noticeID, opp.title, opp.organizationType, opp.postedDate, opp.type',
     opp.baseType, opp.archiveType, opp.archiveDate, opp.typeOfSetAside,
     opp.typeOfSetAsideDesc, opp.responseDeadline, opp.naics,
     opp.classificationCode, (if opp.active then "true" else "false"),
     opp.pointOfContact, opp.placeOfPerformance, opp.description,
     opp.department, opp.subTier, opp.office, opp.links]

/-- `computeContentHash` (ingestion service): SHA-256 over the JSON
serialization of the canonical subset of fields, in the source's `hashData`
field order; serialization of the subset struct is modelled as a canonical
field-order rendering and SHA-256 by the injective `sha256Hex` tag. -/
def computeContentHash (opp : Opportunity) : String :=
  sha256Hex (marshalOpportunity opp)

/-- `ProcessOpportunity`: compute the content hash, look up the stored row by
`notice_id`, and insert (`"new"`), version-snapshot and update
(`"updated"`), or leave everything untouched (`"skipped"`).  Each SQL
statement of the source is the corresponding pure table operation, in the
source's execution order. -/
def ProcessOpportunity (db : IngestDB) (opp : Opportunity) : String × IngestDB :=
  let hash := computeContentHash opp
  let rawData := marshalOpportunity opp
  match assocFind db.opportunity opp.noticeID with
  | none =>
    let db1 := { db with opportunityRaw := upsertAssoc db.opportunityRaw opp.noticeID rawData }
    let db2 := { db1 with opportunity := db1.opportunity ++ [(opp.noticeID, OpportunityRow.mk opp hash)] }
    ("new", db2)
  | some row =>
    if row.contentHash ≠ hash then
      let db1 := { db with opportunityRaw := upsertAssoc db.opportunityRaw opp.noticeID rawData }
      let db2 := { db1 with opportunityVersion := db1.opportunityVersion ++ [VersionRow.mk opp.noticeID hash rawData] }
      let db3 := { db2 with opportunity := updateOppRow db2.opportunity opp.noticeID (OpportunityRow.mk opp hash) }
      ("updated", db3)
    else ("skipped", db)

def c3opp : Opportunity := { noticeID := "N-1", title := "T", description := "hello" }

def c3db1 : IngestDB := (ProcessOpportunity {} c3opp).2

def c3opp2 : Opportunity := { c3opp with title := "T2" }

def c6TripleWrapped : String :=
  "\"\\\"\x7b\\\\\\\"description\\\\\\\":\\\\\\\"hi\\\\\\\"\x7d\\\"\""

/-- A top-level member of a JSON object payload: either a string member
`"k":"v"` or an object member `"k":{...}` whose body is a list of string
pairs (whose keys may themselves be `description`). -/
inductive TopMember where
  | strVal (k v : String)
  | objVal (k : String) (pairs : List (String × String))

def renderPair (p : String × String) : String :=
  "\"" ++ p.1 ++ "\":\"" ++ p.2 ++ "\""

def renderPairsTail : List (String × String) → String
  | [] => ""
  | p :: ps => "," ++ renderPair p ++ renderPairsTail ps

def renderObjBody : List (String × String) → String
  | [] => ""
  | p :: ps => renderPair p ++ renderPairsTail ps

def renderMember : TopMember → String
  | .strVal k v => "\"" ++ k ++ "\":\"" ++ v ++ "\""
  | .objVal k pairs => "\"" ++ k ++ "\":\x7b" ++ renderObjBody pairs ++ "\x7d"

def renderPreMembers : List TopMember → String
  | [] => ""
  | m :: ms => renderMember m ++ "," ++ renderPreMembers ms

def renderPostMembers : List TopMember → String
  | [] => ""
  | m :: ms => "," ++ renderMember m ++ renderPostMembers ms

/-- The JSON payload holding the `description` key at top level with value
`v`, preceded by the members `pre` and followed by the members `post`; any
member may be a nested object carrying its own `description` key. -/
def renderPayload (pre : List TopMember) (v : String) (post : List TopMember) : String :=
  "\x7b" ++ renderPreMembers pre ++ "\"description\":\"" ++ v ++ "\""
    ++ renderPostMembers post ++ "\x7d"

/-- A string free of quotes and backslashes, so its JSON rendering needs no
escaping. -/
def safeStrB (s : String) : Bool :=
  s.data.all fun c => !(decide (c = '"')) && !(decide (c = '\\'))

/-- A well-formed member occurring before the top-level `description` key:
its strings are quote- and backslash-free and neither a top-level key nor a
top-level string VALUE is itself the word `description` (a top-level value
equal to it derails the scanner — see the counterexample).  The keys and
values of a NESTED object are unconstrained beyond quote-freedom: nested
`description` keys are allowed. -/
def memberSafeB : TopMember → Bool
  | .strVal k v => safeStrB k && safeStrB v &&
      !(decide (k = "description")) && !(decide (v = "description"))
  | .objVal k pairs => safeStrB k && !(decide (k = "description")) &&
      pairs.all fun p => safeStrB p.1 && safeStrB p.2

def c9para1 : String := "contract " ++ (⟨List.replicate 987 '#'⟩ : String)

def c9para2 : String := "delivery now"

def c9input : String := c9para1 ++ "\n\n" ++ c9para2

/-! ## Claim theorems -/

/-! ### Evaluation checks of the embedding on concrete inputs -/

example : Normalize "&amp;amp;" = "&amp;" := by decide
example : Normalize "&amp;" = "&" := by decide
example : NormalizeRaw "a \r\nb\rc" = "a\nb\nc" := by decide
example : Normalize "a  b | c ||| d" = "a b | c d" := by decide

example : parseJSON "\x7b\"a\": [1, true, \"x\"]\x7d" =
    some (JVal.jobj [("a", JVal.jarr [JVal.jnum "1", JVal.jbool true, JVal.jstr "x"])]) := rfl

example : parseJSON "\x7b\"description\":\"A\nB\"\x7d" = none := rfl

example : UnwrapDescriptionText "hello world" = "hello world" := rfl
example : UnwrapDescriptionText "" = "" := rfl
example : UnwrapDescriptionText "\x7b\"description\":\"A\\nB\"\x7d" = "A\nB" := rfl
example : UnwrapDescriptionText "\x7b\"description\":\"A\nB\"\x7d" = "A\nB" := rfl
example : UnwrapDescriptionText "\"\"" = "" := rfl
example : UnwrapDescriptionText "  " = "  " := rfl
example :
    UnwrapDescriptionText "\"\\\"\x7b\\\\\\\"description\\\\\\\":\\\\\\\"hi\\\\\\\"\x7d\\\"\"" =
      "\x7b\"description\":\"hi\"\x7d" := rfl
example : UnwrapDescriptionText "\x7b\"description\":\"hi\"\x7d" = "hi" := rfl
example :
    ExtractDescriptionJSONLike "\x7b\"x\":\"description\",\"description\":\"top\"\x7d" = none := rfl
example :
    ExtractDescriptionJSONLike "\x7b\"description\":\"top\",\"nested\":\x7b\"description\":\"evil\"\x7d\x7d" =
      some "top" := rfl

example : extractKeyFacts "Quote is valid for 45 days. Requires IRPOD review." =
    ["Requires IRPOD review", "Quote validity: 45 days"] := rfl

example : OptimizeForAI "" = Except.ok ("", "", {}, none) := rfl

example : aiSelectedParagraphs "contract work is in scope" = ["contract work is in scope"] := rfl

/-- C1: the spec requires Tier-2 normalization to be idempotent
(`Normalize (Normalize x) = Normalize x` for all `x`), but the code applies
HTML-entity decoding on every run: at the failing input `"&amp;amp;"` the
first pass yields `"&amp;"` and the second pass decodes again to `"&"`, so
re-running Tier-2 on its own output changes it. -/
theorem C1_normalize_not_idempotent_at_failing_input :
    Normalize "&amp;amp;" = "&amp;" ∧
      Normalize (Normalize "&amp;amp;") = "&" ∧
      Normalize (Normalize "&amp;amp;") ≠ Normalize "&amp;amp;" :=
  ⟨by decide, by decide, by decide⟩

/-- C4: lenient extraction and strict parsing agree on the decoded value:
unwrapping `{"description":"A\nB"}` with a raw (unescaped) newline inside the
quotes (rejected by the strict parser, recovered by the tolerant scanner) and
unwrapping the strictly valid `{"description":"A\\nB"}` (escaped newline)
both yield the same two-line string `"A\nB"`. -/
theorem C4_lenient_and_strict_agree :
    UnwrapDescriptionText "\x7b\"description\":\"A\nB\"\x7d" = "A\nB" ∧
      UnwrapDescriptionText "\x7b\"description\":\"A\\nB\"\x7d" = "A\nB" :=
  ⟨rfl, rfl⟩

/-- C3: `ProcessOpportunity` returns `"new"` and inserts the row (with no
version write) when no row is stored under the notice id; returns
`"skipped"` and performs no writes at all when the stored content hash equals
the computed one; and returns `"updated"` appending exactly one version
snapshot row when the hashes differ. -/
theorem C3_change_detection (db : IngestDB) (opp : Opportunity) :
    (assocFind db.opportunity opp.noticeID = none →
      (ProcessOpportunity db opp).1 = "new" ∧
      (ProcessOpportunity db opp).2.opportunity =
        db.opportunity ++ [(opp.noticeID, OpportunityRow.mk opp (computeContentHash opp))] ∧
      (ProcessOpportunity db opp).2.opportunityVersion = db.opportunityVersion) ∧
    (∀ row, assocFind db.opportunity opp.noticeID = some row →
      (row.contentHash = computeContentHash opp →
        ProcessOpportunity db opp = ("skipped", db)) ∧
      (row.contentHash ≠ computeContentHash opp →
        (ProcessOpportunity db opp).1 = "updated" ∧
        (ProcessOpportunity db opp).2.opportunityVersion =
          db.opportunityVersion ++
            [VersionRow.mk opp.noticeID (computeContentHash opp) (marshalOpportunity opp)])) := by
  constructor
  · intro h
    simp [ProcessOpportunity, h]
  · intro row h
    refine ⟨fun he => ?_, fun hne => ?_⟩
    · simp [ProcessOpportunity, h, he]
    · simp [ProcessOpportunity, h, hne]

/-- C3 witness: a concrete ingest-twice-then-mutate scenario ("new", then
"skipped" with the database unchanged, then "updated" with exactly one new
version row). -/
theorem C3_witness :
    (ProcessOpportunity {} c3opp).1 = "new" ∧
      ProcessOpportunity c3db1 c3opp = ("skipped", c3db1) ∧
      (ProcessOpportunity c3db1 c3opp2).1 = "updated" ∧
      (ProcessOpportunity c3db1 c3opp2).2.opportunityVersion =
        c3db1.opportunityVersion ++
          [VersionRow.mk c3opp2.noticeID (computeContentHash c3opp2)
            (marshalOpportunity c3opp2)] := by
  refine ⟨((C3_change_detection {} c3opp).1 (by decide)).1,
    ((C3_change_detection c3db1 c3opp).2
      (OpportunityRow.mk c3opp (computeContentHash c3opp)) (by decide)).1 (by decide),
    ?_, ?_⟩
  · exact (((C3_change_detection c3db1 c3opp2).2
      (OpportunityRow.mk c3opp (computeContentHash c3opp)) (by decide)).2 (by decide)).1
  · exact (((C3_change_detection c3db1 c3opp2).2
      (OpportunityRow.mk c3opp (computeContentHash c3opp)) (by decide)).2 (by decide)).2

/-- C8: the body read of `FetchDescription` is hard-capped: any body longer
than `maxBodySize` makes the read fail, and a successful read always returns
the body in full — never a silently truncated prefix. -/
theorem C8_fetch_body_cap (body : List Char) :
    (body.length > maxBodySize → (fetchReadBody body).isOk = false) ∧
    (∀ r, fetchReadBody body = Except.ok r → r = body) := by
  constructor
  · intro h
    unfold fetchReadBody
    split
    · rfl
    · rename_i hcond
      rw [List.length_take] at hcond
      exact absurd (by omega : min maxBodySize body.length ≥ maxBodySize) hcond
  · intro r hr
    unfold fetchReadBody at hr
    split at hr
    · exact Except.noConfusion hr
    · rename_i hcond
      rw [List.length_take] at hcond
      injection hr with hr'
      rw [← hr']
      exact List.take_of_length_le (by omega)

/-- C8 witness: a body one byte over the cap is rejected. -/
theorem C8_witness :
    (List.replicate (maxBodySize + 1) 'a').length > maxBodySize ∧
      (fetchReadBody (List.replicate (maxBodySize + 1) 'a')).isOk = false :=
  ⟨by simp, (C8_fetch_body_cap _).1 (by simp)⟩

/-! ### C7: lemmas about paragraph selection -/

lemma selectLoop_mem (l : List (String × Int)) :
    ∀ i avail total p, p ∈ selectLoop l i avail total → ∃ sc, (p, sc) ∈ l ∧ 0 < sc := by
  induction l with
  | nil => intro i avail total p h; simp [selectLoop] at h
  | cons hd tl ih =>
    intro i avail total p h
    obtain ⟨text, score⟩ := hd
    simp only [selectLoop] at h
    by_cases h1 : i ≥ getAIMaxParas
    · rw [if_pos h1] at h
      simp at h
    · rw [if_neg h1] at h
      by_cases h2 : score ≤ 0
      · rw [if_pos h2] at h
        simp at h
      · rw [if_neg h2] at h
        by_cases h3 : total + Int.ofNat text.length > avail
        · rw [if_pos h3] at h
          simp at h
        · rw [if_neg h3] at h
          rcases List.mem_cons.mp h with rfl | hmem
          · exact ⟨score, List.mem_cons_self _ _, by omega⟩
          · obtain ⟨sc, hm, hpos⟩ := ih _ _ _ _ hmem
            exact ⟨sc, List.mem_cons_of_mem _ hm, hpos⟩

lemma bubblePassAux_mem (p : String × Int) :
    ∀ (l : List (String × Int)) (cur), p ∈ bubblePassAux cur l → p = cur ∨ p ∈ l := by
  intro l
  induction l with
  | nil => intro cur h; simp [bubblePassAux] at h; exact Or.inl h
  | cons y rest ih =>
    intro cur h
    simp only [bubblePassAux] at h
    by_cases hc : cur.snd < y.snd
    · rw [if_pos hc] at h
      rcases List.mem_cons.mp h with rfl | hm
      · exact Or.inr (List.mem_cons_self _ _)
      · rcases ih cur hm with h' | h'
        · exact Or.inl h'
        · exact Or.inr (List.mem_cons_of_mem _ h')
    · rw [if_neg hc] at h
      rcases List.mem_cons.mp h with rfl | hm
      · exact Or.inl rfl
      · rcases ih y hm with h' | h'
        · exact Or.inr (h' ▸ List.mem_cons_self _ _)
        · exact Or.inr (List.mem_cons_of_mem _ h')

lemma bubblePass_mem (p : String × Int) (l : List (String × Int))
    (h : p ∈ bubblePass l) : p ∈ l := by
  cases l with
  | nil => simp [bubblePass] at h
  | cons x rest =>
    rcases bubblePassAux_mem p rest x h with rfl | h'
    · exact List.mem_cons_self _ _
    · exact List.mem_cons_of_mem _ h'

lemma bubbleIter_mem (p : String × Int) :
    ∀ (n : Nat) (l : List (String × Int)), p ∈ bubbleIter n l → p ∈ l := by
  intro n
  induction n with
  | zero => intro l h; exact h
  | succ k ih => intro l h; exact bubblePass_mem _ _ (ih _ h)

lemma sortScoredParas_mem (p : String × Int) (l : List (String × Int))
    (h : p ∈ sortScoredParas l) : p ∈ l :=
  bubbleIter_mem p _ l h

lemma scoredParas_snd (paragraphs : List String) (p : String) (sc : Int)
    (h : (p, sc) ∈ scoredParas paragraphs) : sc = scoreParagraph p := by
  simp only [scoredParas, List.mem_filterMap] at h
  obtain ⟨para, _, hsome⟩ := h
  by_cases he : (goTrimSpace para).data.isEmpty
  · simp [he] at hsome
  · simp only [he, if_false] at hsome
    rw [if_neg (by simp [he])] at hsome
    injection hsome with h2
    injection h2 with h3 h4
    rw [← h3, ← h4]

/-- C7: AI extraction on empty input returns empty AI text, an empty excerpt,
an empty metadata record, no primary email and a nil error; and for every
input, every paragraph selected for the AI input text and the excerpt (they
are built from the same selection) has a strictly positive score. -/
theorem C7_ai_empty_and_positive_scores (input p : String) :
    OptimizeForAI "" = Except.ok ("", "", {}, none) ∧
      (p ∈ aiSelectedParagraphs input → 0 < scoreParagraph p) := by
  refine ⟨rfl, fun hmem => ?_⟩
  unfold aiSelectedParagraphs at hmem
  obtain ⟨sc, hm, hpos⟩ := selectLoop_mem _ _ _ _ _ hmem
  have hm2 := sortScoredParas_mem _ _ hm
  have hsc := scoredParas_snd _ _ _ hm2
  omega

/-- C7 witness: a concrete input whose single paragraph is selected, with the
positive score obtained from the theorem. -/
theorem C7_witness :
    "contract work is in scope" ∈ aiSelectedParagraphs "contract work is in scope" ∧
      0 < scoreParagraph "contract work is in scope" :=
  ⟨by decide,
   (C7_ai_empty_and_positive_scores "contract work is in scope"
     "contract work is in scope").2 (by decide)⟩

/-! ### C2: the fetched-record invariant -/

/-- C2 counterexample: an opportunity whose description field is the
two-character JSON string `""` classifies as inline, and the inline path then
stores a record with `fetchStatus = fetched` whose three text tiers are all
the EMPTY string — the spec's "all three text tiers are non-empty" does not
hold on the code. -/
theorem C2_counterexample_fetched_with_empty_tiers :
    DetectSource { noticeID := "n1", description := "\"\"" } =
        (DescriptionSourceType.inline, "", "\"\"") ∧
      (handleInline "n1" "\"\"").map
          (fun d => (d.fetchStatus, d.rawText, d.rawTextNormalized, d.textNormalized)) =
        Except.ok (FetchStatus.fetched, some "", some "", some "") :=
  ⟨rfl, rfl⟩

/-- C2 (amended): whenever the inline path or the URL path of
`HandleGetDescription` stores a record with `fetchStatus = fetched`, all
three text tiers are SET (non-null — though possibly empty) and
`normalizationVersion` is stamped with the current version. -/
theorem C2_fetched_records_have_tiers_set (noticeID s url rawText rawJson : String)
    (st : Int) (ferr : Option String) :
    (match handleInline noticeID s with
     | Except.ok d =>
       d.fetchStatus = FetchStatus.fetched ∧ d.rawText.isSome = true ∧
         d.rawTextNormalized.isSome = true ∧ d.textNormalized.isSome = true ∧
         d.normalizationVersion = some NORMALIZATION_VERSION
     | Except.error _ => True) ∧
    (match handleURLFetchResult noticeID url rawText rawJson st ferr with
     | Except.ok d =>
       d.fetchStatus = FetchStatus.fetched →
         d.rawText.isSome = true ∧ d.rawTextNormalized.isSome = true ∧
           d.textNormalized.isSome = true ∧
           d.normalizationVersion = some NORMALIZATION_VERSION
     | Except.error _ => True) := by
  constructor
  · cases hO : OptimizeForAI (NormalizeRaw (UnwrapDescriptionText s)) with
    | error e => simp [handleInline, hO]
    | ok r =>
      obtain ⟨a, b, m, poc⟩ := r
      simp [handleInline, hO]
  · cases ferr with
    | some msg => simp [handleURLFetchResult]
    | none =>
      cases hc : (decide (st = 404) ||
          containsSubstr (rawText.data.map asciiToLower) "description not found".data) with
      | true => simp [handleURLFetchResult, hc]
      | false =>
        cases hO : OptimizeForAI (NormalizeRaw (UnwrapDescriptionText rawText)) with
        | error e => simp [handleURLFetchResult, hc, hO]
        | ok r =>
          obtain ⟨a, b, m, poc⟩ := r
          simp [handleURLFetchResult, hc, hO]

/-- C2 witness: the amended statement's inline part at a concrete record. -/
theorem C2_witness :
    (match handleInline "n1" "hello" with
     | Except.ok d =>
       d.fetchStatus = FetchStatus.fetched ∧ d.rawText.isSome = true ∧
         d.rawTextNormalized.isSome = true ∧ d.textNormalized.isSome = true ∧
         d.normalizationVersion = some NORMALIZATION_VERSION
     | Except.error _ => True) :=
  (C2_fetched_records_have_tiers_set "n1" "hello" "http://u" "body" "" 200 none).1

/-! ### C6: unwrap idempotence -/

lemma unwrapStep_none_fix (x : String) (h : unwrapStep x = none) :
    ∀ m, unwrapG m x = x := by
  intro m
  cases m with
  | zero => rfl
  | succ k => simp [unwrapG, h]

lemma unwrapG_fix :
    ∀ (n : Nat) (x : String), unwrapG n x = unwrapG (n + 1) x →
      ∀ k, unwrapG k (unwrapG n x) = unwrapG n x := by
  intro n
  induction n with
  | zero =>
    intro x hx
    simp only [unwrapG] at hx
    cases hstep : unwrapStep x with
    | none =>
      intro k
      exact unwrapStep_none_fix x hstep k
    | some v =>
      rw [hstep] at hx
      have hxv : x = v := hx
      intro k
      show unwrapG k x = x
      induction k with
      | zero => rfl
      | succ j ihj =>
        show unwrapG (j + 1) x = x
        simp only [unwrapG, hstep]
        rw [← hxv]
        exact ihj
  | succ n ihn =>
    intro x hx k
    cases hstep : unwrapStep x with
    | none =>
      rw [unwrapStep_none_fix x hstep (n + 1)]
      exact unwrapStep_none_fix x hstep k
    | some v =>
      have h1 : unwrapG (n + 1) x = unwrapG n v := by simp only [unwrapG, hstep]
      have h2 : unwrapG (n + 2) x = unwrapG (n + 1) v := by simp only [unwrapG, hstep]
      rw [h1, h2] at hx
      rw [h1]
      exact ihn v hx k

/-- C6 (amended): unwrapping never errors (it is a total function), returns a
plain-text input — whose trimmed form begins with neither `{` nor `"`, the
empty string included — unchanged, and is idempotent whenever its result is
fully resolved, i.e. whenever one extra unit of recursion budget would not
change the answer; the depth-2 recursion limit breaks idempotence in general
(see the triple-wrapped counterexample). -/
theorem C6_unwrap_idempotent_once_resolved (x : String) :
    (unwrapG 3 x = unwrapG 2 x →
      UnwrapDescriptionText (UnwrapDescriptionText x) = UnwrapDescriptionText x) ∧
    ((goTrimSpaceList x.data).head? ≠ some '\x7b' →
      (goTrimSpaceList x.data).head? ≠ some '"' →
      UnwrapDescriptionText x = x) := by
  constructor
  · intro h
    show unwrapG 2 (unwrapG 2 x) = unwrapG 2 x
    exact unwrapG_fix 2 x h.symm 2
  · intro h1 h2
    have hstep : unwrapStep x = none := by
      unfold unwrapStep
      simp [decide_eq_false h1, decide_eq_false h2]
    exact unwrapStep_none_fix x hstep 2

/-- C6 counterexample: a triple-encoded description stops at the depth-2
recursion limit with an output that still unwraps further, so
`unwrap (unwrap x) ≠ unwrap x`. -/
theorem C6_counterexample_triple_wrap :
    UnwrapDescriptionText c6TripleWrapped = "\x7b\"description\":\"hi\"\x7d" ∧
      UnwrapDescriptionText (UnwrapDescriptionText c6TripleWrapped) = "hi" ∧
      UnwrapDescriptionText (UnwrapDescriptionText c6TripleWrapped) ≠
        UnwrapDescriptionText c6TripleWrapped :=
  ⟨rfl, rfl, by decide⟩

/-- C6 witness: the amended statement at the plain text `"hello"` and at the
empty string. -/
theorem C6_witness :
    unwrapG 3 "hello" = unwrapG 2 "hello" ∧
      UnwrapDescriptionText (UnwrapDescriptionText "hello") =
        UnwrapDescriptionText "hello" ∧
      UnwrapDescriptionText "" = "" :=
  ⟨by decide, (C6_unwrap_idempotent_once_resolved "hello").1 (by decide),
    (C6_unwrap_idempotent_once_resolved "").2 (by decide) (by decide)⟩

/-! ### C5: top-level-only key matching of the tolerant scanner -/

/-- C5 counterexample: in the payload
`{"x":"description","description":"top"}` the key text occurs inside a
top-level string LITERAL before the real top-level key; the scanner's key
check fires at the opening quote of that value, finds no colon after it, and
aborts — it returns nothing at all instead of the top-level value `"top"`,
so "the value returned is the top-level one" fails for this payload. -/
theorem C5_counterexample_string_literal_blocks_scan :
    ExtractDescriptionJSONLike "\x7b\"x\":\"description\",\"description\":\"top\"\x7d" = none :=
  rfl

lemma lenientBody_safe (vl : List Char) :
    ∀ (acc rest : List Char) (fuel : Nat), (∀ c ∈ vl, c ≠ '"' ∧ c ≠ '\\') →
      vl.length < fuel →
      lenientBody fuel (vl ++ '"' :: rest) acc = some (⟨acc.reverse ++ vl⟩, rest) := by
  induction vl with
  | nil =>
    intro acc rest fuel _ hf
    cases fuel with
    | zero => omega
    | succ f => simp [lenientBody]
  | cons c vl' ih =>
    intro acc rest fuel hsafe hf
    obtain ⟨hq, hb⟩ := hsafe c (List.mem_cons_self _ _)
    cases fuel with
    | zero => omega
    | succ f =>
      show lenientBody (f + 1) (c :: (vl' ++ '"' :: rest)) acc = _
      simp only [lenientBody]
      rw [if_neg hq, if_neg hb]
      rw [ih (c :: acc) rest f (fun d hd => hsafe d (List.mem_cons_of_mem _ hd))
        (by simp at hf ⊢; omega)]
      simp

lemma scanLoop_desc_key (tail : List Char) :
    scanLoop ('"' :: 'd' :: 'e' :: 's' :: 'c' :: 'r' :: 'i' :: 'p' :: 't' :: 'i' :: 'o' :: 'n' :: '"' :: ':' :: '"' :: tail) 1 false false =
      (match parseLenientJSONString ('"' :: tail) with
       | some (val, _) => if val.length > maxExtractedLength then none else some val
       | none => none) := rfl

/-! Single-step facts about the scanner, used to walk it across a payload. -/

lemma scanLoop_skip_in_string (vl : List Char) (h : ∀ c ∈ vl, c ≠ '"' ∧ c ≠ '\\') :
    ∀ (rest : List Char) (d : Int), scanLoop (vl ++ rest) d true false = scanLoop rest d true false := by
  induction vl with
  | nil => intro rest d; rfl
  | cons c vl' ih =>
    intro rest d
    obtain ⟨h1, h2⟩ := h c (List.mem_cons_self _ _)
    have c1 : ¬((decide (c = '\\') && true) = true) := by
      simp only [Bool.and_true, decide_eq_true_eq]
      exact h2
    have c3 : ¬((!true && (decide (c = '\x7b') || decide (c = '['))) = true) := by simp
    have c4 : ¬((!true && (decide (c = '\x7d') || decide (c = ']'))) = true) := by simp
    show scanLoop (c :: (vl' ++ rest)) d true false = _
    simp only [scanLoop]
    rw [if_neg c1, if_neg h1, if_neg c3, if_neg c4]
    exact ih (fun x hx => h x (List.mem_cons_of_mem _ hx)) rest d

lemma scanLoop_close_quote (rest : List Char) (d : Int) :
    scanLoop ('"' :: rest) d true false = scanLoop rest d false false := by
  have c1 : ¬((decide ('"' = '\\') && true) = true) := by decide
  have c2 : ¬((decide (d = 1) && !true && descKey.isPrefixOf ('"' :: rest)) = true) := by
    simp
  simp only [scanLoop]
  rw [if_neg c1, if_pos trivial, if_neg c2]
  rfl

lemma scanLoop_step_plain (c : Char) (h2 : c ≠ '"')
    (h3 : c ≠ '\x7b') (h4 : c ≠ '[') (h5 : c ≠ '\x7d') (h6 : c ≠ ']')
    (rest : List Char) (d : Int) :
    scanLoop (c :: rest) d false false = scanLoop rest d false false := by
  have c0 : ¬(false = true) := by decide
  have c1 : ¬((decide (c = '\\') && false) = true) := by simp
  have c3 : ¬((!false && (decide (c = '\x7b') || decide (c = '['))) = true) := by
    simp only [Bool.not_false, Bool.true_and, Bool.or_eq_true, decide_eq_true_eq]
    exact fun h => h.elim h3 h4
  have c4 : ¬((!false && (decide (c = '\x7d') || decide (c = ']'))) = true) := by
    simp only [Bool.not_false, Bool.true_and, Bool.or_eq_true, decide_eq_true_eq]
    exact fun h => h.elim h5 h6
  simp only [scanLoop]
  rw [if_neg c1, if_neg h2, if_neg c3, if_neg c4]
  exact if_neg c0

lemma scanLoop_open_brace (rest : List Char) (d : Int) :
    scanLoop ('\x7b' :: rest) d false false = scanLoop rest (d + 1) false false := by
  simp [scanLoop]

lemma scanLoop_close_brace (rest : List Char) (d : Int) (hd : ¬ d - 1 < 0) :
    scanLoop ('\x7d' :: rest) d false false = scanLoop rest (d - 1) false false := by
  simp [scanLoop, hd]

lemma scanLoop_open_quote_no_key (rest : List Char) (d : Int)
    (hcheck : ¬((decide (d = 1) && !false && descKey.isPrefixOf ('"' :: rest)) = true)) :
    scanLoop ('"' :: rest) d false false = scanLoop rest d true false := by
  have c1 : ¬((decide ('"' = '\\') && false) = true) := by decide
  simp only [scanLoop]
  rw [if_neg c1, if_pos trivial, if_neg hcheck]
  rfl

/-- If a quote-free candidate followed by a closing quote carries
`kb ++ ['"']` as a prefix (for quote-free `kb`), the candidate IS `kb`: the
scanner's key check can only fire on the exact key text. -/
lemma key_prefix_forces_eq (kb : List Char) (hk : ∀ c ∈ kb, c ≠ '"') :
    ∀ (vl : List Char), (∀ c ∈ vl, c ≠ '"') →
      ∀ rest : List Char, (kb ++ ['"']) <+: (vl ++ ('"' :: rest)) → vl = kb := by
  induction kb with
  | nil =>
    intro vl hv rest hp
    cases vl with
    | nil => rfl
    | cons c vl' =>
      exfalso
      obtain ⟨t, ht⟩ := hp
      injection ht with ht1 _
      exact hv c (List.mem_cons_self _ _) ht1.symm
  | cons k kb' ih =>
    intro vl hv rest hp
    obtain ⟨t, ht⟩ := hp
    cases vl with
    | nil =>
      exfalso
      injection ht with ht1 _
      exact hk k (List.mem_cons_self _ _) ht1
    | cons c vl' =>
      injection ht with ht1 ht2
      have h2 := ih (fun x hx => hk x (List.mem_cons_of_mem _ hx)) vl'
        (fun x hx => hv x (List.mem_cons_of_mem _ hx)) rest ⟨t, ht2⟩
      rw [h2, ht1]

/-- At the opening quote of a quote-free string other than the word
`description`, the scanner's key check is false. -/
lemma descKey_check_false (vl : List Char) (hv : ∀ c ∈ vl, c ≠ '"')
    (hne : vl ≠ "description".data) (rest : List Char) :
    descKey.isPrefixOf ('"' :: (vl ++ ('"' :: rest))) = false := by
  cases h : descKey.isPrefixOf ('"' :: (vl ++ ('"' :: rest))) with
  | false => rfl
  | true =>
    exfalso
    have hp : descKey <+: ('"' :: (vl ++ ('"' :: rest))) := List.isPrefixOf_iff_prefix.mp h
    have hdk : descKey = '"' :: ("description".data ++ ['"']) := by decide
    rw [hdk] at hp
    obtain ⟨t, ht⟩ := hp
    injection ht with _ ht2
    have hk : ∀ c ∈ "description".data, c ≠ '"' := by decide
    exact hne (key_prefix_forces_eq "description".data hk vl hv rest ⟨t, ht2⟩)

/-- Crossing a complete string literal at depth 1: a safe string other than
`description` is skipped without firing the key check. -/
lemma scanLoop_string_lit_d1 (vl : List Char) (h : ∀ c ∈ vl, c ≠ '"' ∧ c ≠ '\\')
    (hne : vl ≠ "description".data) (rest : List Char) :
    scanLoop ('"' :: (vl ++ ('"' :: rest))) 1 false false = scanLoop rest 1 false false := by
  have hq : ∀ c ∈ vl, c ≠ '"' := fun c hc => (h c hc).1
  have hcheck : ¬((decide ((1 : Int) = 1) && !false &&
      descKey.isPrefixOf ('"' :: (vl ++ ('"' :: rest)))) = true) := by
    rw [descKey_check_false vl hq hne rest]
    simp
  rw [scanLoop_open_quote_no_key (vl ++ ('"' :: rest)) 1 hcheck]
  rw [scanLoop_skip_in_string vl h]
  exact scanLoop_close_quote rest 1

/-- Crossing a complete string literal at depth 2: the key check requires
depth 1, so nested strings — the word `description` included — are always
skipped. -/
lemma scanLoop_string_lit_d2 (vl : List Char) (h : ∀ c ∈ vl, c ≠ '"' ∧ c ≠ '\\')
    (rest : List Char) :
    scanLoop ('"' :: (vl ++ ('"' :: rest))) 2 false false = scanLoop rest 2 false false := by
  have h21 : decide ((2 : Int) = 1) = false := by decide
  have hcheck : ¬((decide ((2 : Int) = 1) && !false &&
      descKey.isPrefixOf ('"' :: (vl ++ ('"' :: rest)))) = true) := by
    rw [h21]
    simp
  rw [scanLoop_open_quote_no_key (vl ++ ('"' :: rest)) 2 hcheck]
  rw [scanLoop_skip_in_string vl h]
  exact scanLoop_close_quote rest 2

lemma safeStrB_spec (s : String) (h : safeStrB s = true) :
    ∀ c ∈ s.data, c ≠ '"' ∧ c ≠ '\\' := by
  intro c hc
  have hall := List.all_eq_true.mp h c hc
  simp only [Bool.and_eq_true, Bool.not_eq_true', decide_eq_false_iff_not] at hall
  exact hall

lemma scanLoop_pair (p : String × String) (h1 : safeStrB p.1 = true)
    (h2 : safeStrB p.2 = true) (rest : List Char) :
    scanLoop ((renderPair p).data ++ rest) 2 false false = scanLoop rest 2 false false := by
  have hd : (renderPair p).data ++ rest =
      '"' :: (p.1.data ++ ('"' :: ':' :: '"' :: (p.2.data ++ ('"' :: rest)))) := by
    simp [renderPair]
  rw [hd]
  rw [scanLoop_string_lit_d2 p.1.data (safeStrB_spec p.1 h1)]
  rw [scanLoop_step_plain ':' (by decide) (by decide) (by decide) (by decide) (by decide)]
  exact scanLoop_string_lit_d2 p.2.data (safeStrB_spec p.2 h2) rest

lemma scanLoop_pairsTail (ps : List (String × String))
    (h : ps.all (fun p => safeStrB p.1 && safeStrB p.2) = true) (rest : List Char) :
    scanLoop ((renderPairsTail ps).data ++ rest) 2 false false = scanLoop rest 2 false false := by
  induction ps with
  | nil => rfl
  | cons p ps' ih =>
    simp only [List.all_cons, Bool.and_eq_true] at h
    obtain ⟨⟨hp1, hp2⟩, hps⟩ := h
    have hd : (renderPairsTail (p :: ps')).data ++ rest =
        ',' :: ((renderPair p).data ++ ((renderPairsTail ps').data ++ rest)) := by
      simp [renderPairsTail]
    rw [hd]
    rw [scanLoop_step_plain ',' (by decide) (by decide) (by decide) (by decide) (by decide)]
    rw [scanLoop_pair p hp1 hp2]
    exact ih hps

lemma scanLoop_objBody (ps : List (String × String))
    (h : ps.all (fun p => safeStrB p.1 && safeStrB p.2) = true) (rest : List Char) :
    scanLoop ((renderObjBody ps).data ++ rest) 2 false false = scanLoop rest 2 false false := by
  cases ps with
  | nil => rfl
  | cons p ps' =>
    simp only [List.all_cons, Bool.and_eq_true] at h
    obtain ⟨⟨hp1, hp2⟩, hps⟩ := h
    have hd : (renderObjBody (p :: ps')).data ++ rest =
        (renderPair p).data ++ ((renderPairsTail ps').data ++ rest) := by
      simp [renderObjBody]
    rw [hd, scanLoop_pair p hp1 hp2, scanLoop_pairsTail ps' hps]

/-- A whole well-formed top-level member — a string member or a nested
object, the latter free to hold its own `description` keys — is crossed at
depth 1 without firing the key check. -/
lemma scanLoop_member (m : TopMember) (hm : memberSafeB m = true) (rest : List Char) :
    scanLoop ((renderMember m).data ++ rest) 1 false false = scanLoop rest 1 false false := by
  cases m with
  | strVal k v =>
    simp only [memberSafeB, Bool.and_eq_true, Bool.not_eq_true', decide_eq_false_iff_not] at hm
    obtain ⟨⟨⟨hk, hv⟩, hkne⟩, hvne⟩ := hm
    have hd : (renderMember (TopMember.strVal k v)).data ++ rest =
        '"' :: (k.data ++ ('"' :: ':' :: '"' :: (v.data ++ ('"' :: rest)))) := by
      simp [renderMember]
    rw [hd]
    rw [scanLoop_string_lit_d1 k.data (safeStrB_spec k hk)
      (fun hc => hkne (congrArg String.mk hc))]
    rw [scanLoop_step_plain ':' (by decide) (by decide) (by decide) (by decide) (by decide)]
    exact scanLoop_string_lit_d1 v.data (safeStrB_spec v hv)
      (fun hc => hvne (congrArg String.mk hc)) rest
  | objVal k pairs =>
    simp only [memberSafeB, Bool.and_eq_true, Bool.not_eq_true', decide_eq_false_iff_not] at hm
    obtain ⟨⟨hk, hkne⟩, hps⟩ := hm
    have hd : (renderMember (TopMember.objVal k pairs)).data ++ rest =
        '"' :: (k.data ++ ('"' :: ':' :: '\x7b' ::
          ((renderObjBody pairs).data ++ ('\x7d' :: rest)))) := by
      simp [renderMember]
    rw [hd]
    rw [scanLoop_string_lit_d1 k.data (safeStrB_spec k hk)
      (fun hc => hkne (congrArg String.mk hc))]
    rw [scanLoop_step_plain ':' (by decide) (by decide) (by decide) (by decide) (by decide)]
    rw [scanLoop_open_brace]
    have h11 : (1 : Int) + 1 = 2 := by norm_num
    rw [h11]
    rw [scanLoop_objBody pairs hps ('\x7d' :: rest)]
    rw [scanLoop_close_brace rest 2 (by norm_num)]
    norm_num

lemma scanLoop_preMembers (pre : List TopMember)
    (h : pre.all memberSafeB = true) (rest : List Char) :
    scanLoop ((renderPreMembers pre).data ++ rest) 1 false false = scanLoop rest 1 false false := by
  induction pre with
  | nil => rfl
  | cons m ms ih =>
    simp only [List.all_cons, Bool.and_eq_true] at h
    obtain ⟨hm, hms⟩ := h
    have hd : (renderPreMembers (m :: ms)).data ++ rest =
        (renderMember m).data ++ (',' :: ((renderPreMembers ms).data ++ rest)) := by
      simp [renderPreMembers]
    rw [hd, scanLoop_member m hm]
    rw [scanLoop_step_plain ',' (by decide) (by decide) (by decide) (by decide) (by decide)]
    exact ih hms

/-- C5 (amended): within the scan guardrails — payload at most 10 MiB,
value at most 5 MiB — the scanner returns exactly the top-level
`description` value and never a nested or string-literal one: for every
payload built from any well-formed members before the key (string members
and nested objects, the latter free to contain their own `description`
keys) and ANY members after it, with the top-level value `v` free of quotes
and backslashes, extraction returns exactly `v`.  Well-formed requires the
earlier top-level keys and string values not to be the word `description`
itself: an earlier top-level string VALUE equal to it derails the scanner
(see the counterexample), so the claim's "the value returned is the
top-level one" does not hold for every payload with both occurrences. -/
theorem C5_top_level_only (pre post : List TopMember) (v : String)
    (hpre : pre.all memberSafeB = true)
    (hv : safeStrB v = true)
    (hlen : (renderPayload pre v post).length ≤ maxExtractScanLength)
    (hvlen : v.length ≤ maxExtractedLength) :
    ExtractDescriptionJSONLike (renderPayload pre v post) = some v := by
  have hdecomp : (renderPayload pre v post).data =
      "\x7b".data ++ ((renderPreMembers pre).data ++ ("\"description\":\"".data ++
        (v.data ++ ("\"".data ++ ((renderPostMembers post).data ++ "\x7d".data))))) := by
    simp [renderPayload, List.append_assoc]
  have hcons : "\x7b".data ++ ((renderPreMembers pre).data ++ ("\"description\":\"".data ++
        (v.data ++ ("\"".data ++ ((renderPostMembers post).data ++ "\x7d".data))))) =
      '\x7b' :: ((renderPreMembers pre).data ++
        ('"' :: 'd' :: 'e' :: 's' :: 'c' :: 'r' :: 'i' :: 'p' :: 't' :: 'i' :: 'o' :: 'n' :: '"' :: ':' :: '"' ::
          (v.data ++ ('"' :: ((renderPostMembers post).data ++ ['\x7d']))))) := rfl
  have hfull := hdecomp.trans hcons
  unfold ExtractDescriptionJSONLike
  rw [hfull]
  rw [if_neg (by
    have h1 : (renderPayload pre v post).length = (renderPayload pre v post).data.length := rfl
    rw [hfull] at h1
    rw [← h1]
    omega)]
  show scanLoop
      ((renderPreMembers pre).data ++
        ('"' :: 'd' :: 'e' :: 's' :: 'c' :: 'r' :: 'i' :: 'p' :: 't' :: 'i' :: 'o' :: 'n' :: '"' :: ':' :: '"' ::
          (v.data ++ ('"' :: ((renderPostMembers post).data ++ ['\x7d']))))) 1 false false = some v
  rw [scanLoop_preMembers pre hpre]
  rw [scanLoop_desc_key]
  show (match lenientBody
        ((v.data ++ ('"' :: ((renderPostMembers post).data ++ ['\x7d']))).length + 1)
        (v.data ++ ('"' :: ((renderPostMembers post).data ++ ['\x7d'])))
        [] with
      | some (val, _) => if val.length > maxExtractedLength then none else some val
      | none => none) = some v
  rw [lenientBody_safe v.data [] ((renderPostMembers post).data ++ ['\x7d']) _
      (safeStrB_spec v hv) (by simp [List.length_append]; omega)]
  have hmk : (⟨List.reverse [] ++ v.data⟩ : String) = v := by simp
  show (if (⟨List.reverse [] ++ v.data⟩ : String).length > maxExtractedLength then none
        else some (⟨List.reverse [] ++ v.data⟩ : String)) = some v
  rw [hmk]
  rw [if_neg (by omega)]

/-- C5 witness: the amended statement at a concrete payload carrying a
nested `description` object BEFORE the top-level key, a further string
member, and a nested `description` object after it. -/
theorem C5_witness :
    ExtractDescriptionJSONLike (renderPayload
      [TopMember.objVal "nested" [("description", "evil")], TopMember.strVal "x" "y"]
      "top"
      [TopMember.objVal "later" [("description", "also")]]) = some "top" :=
  C5_top_level_only _ _ _ (by decide) (by decide) (by decide) (by decide)

/-! ### C9: the excerpt builder's out-of-range slice -/

set_option maxRecDepth 1000000

/-- C9: `OptimizeForAI` does NOT always return normally: on `c9input` — a
996-character paragraph (score 2) followed by a 12-character one (score 2) —
the excerpt builder reaches 998 accumulated characters after the separator,
leaving `remaining = 2`, and the Go slice `para[:remaining-3]` is taken with
a negative bound: a runtime panic, modelled as the `Except.error` result. -/
theorem C9_optimize_panics_on_excerpt_slice :
    (OptimizeForAI c9input).isOk = false := by decide

end GovCon
